import Mathlib

/-!
Verification development for the block-structured editor in `script.js`.

JavaScript strings are modelled as lists of characters (`Str`).  A DOM block
element (`div.block` with `data-type`, `data-level`, an optional non-editable
marker span and a `div.block-content` region) is modelled by the structure
`Block`; the block's `content` field is the flattened `textContent` of its
content region.  The ordered document is a `List Block`, mirroring
`editor.querySelectorAll access order`.
-/

namespace Thesis

/-- JavaScript strings, modelled as lists of characters. -/
abbrev Str := List Char

/-- JS `trimStart`: drop leading whitespace. -/
def jsTrimStart (s : Str) : Str := s.dropWhile (fun c => c.isWhitespace)

/-- JS string trimming from the right: drop trailing whitespace. -/
def jsTrimEnd (s : Str) : Str := (s.reverse.dropWhile (fun c => c.isWhitespace)).reverse

/-- JS `trim`: drop leading and trailing whitespace. -/
def jsTrim (s : Str) : Str := jsTrimEnd (jsTrimStart s)

/-- The block types of the editor (`data-type` attribute values). -/
inductive BlockType where
  | text | heading1 | heading2 | heading3 | bullet | numbered | quote
deriving DecidableEq, Repr

/-- A block element: `data-type`, `data-level`, flattened text of its
`.block-content` region, and the text of its `.block-marker` span when one
is present (`none` when the block has no marker). -/
structure Block where
  type : BlockType
  level : Nat
  content : Str
  marker : Option Str
deriving DecidableEq, Repr

/-- The bullet marker glyph inserted for bullet blocks. -/
def bulletGlyph : Str := ['•']

/-- The placeholder marker text given to freshly created numbered blocks. -/
def numberedPlaceholder : Str := ['1', '.']

/-- `createBlockElement(type, content, level)` from `script.js`: builds a block
with the marker appropriate to the type (the `<br>` placeholder used for empty
content is a DOM artifact that does not contribute to `textContent`). -/
def createBlockElement (type : BlockType) (content : Str) (level : Nat := 0) : Block :=
  { type := type
    level := level
    content := content
    marker :=
      match type with
      | .bullet => some bulletGlyph
      | .numbered => some numberedPlaceholder
      | _ => none }

/-- The triple of fields of a block that is not touched by the numbering
pass: type, level and content. -/
def Block.core (b : Block) : BlockType × Nat × Str := (b.type, b.level, b.content)

/-! ## Numbering renderer (`updateNumberedBlocks`, script.js lines 64-99) -/

/-- `while (counters.length <= level) counters.push(0)`. -/
def growCounters (cs : List Nat) (lvl : Nat) : List Nat :=
  cs ++ List.replicate (lvl + 1 - cs.length) 0

/-- `counters[level]++`. -/
def bumpCounter (cs : List Nat) (lvl : Nat) : List Nat :=
  cs.set lvl (cs.getD lvl 0 + 1)

/-- `for (let i = level + 1; i < counters.length; i++) counters[i] = 0`. -/
def zeroDeeper (cs : List Nat) (lvl : Nat) : List Nat :=
  cs.take (lvl + 1) ++ List.replicate (cs.length - (lvl + 1)) 0

/-- `parts.join('.')` for the nonzero counter values. -/
def joinDots : List Nat → Str
  | [] => []
  | [n] => Nat.toDigits 10 n
  | n :: m :: rest => Nat.toDigits 10 n ++ '.' :: joinDots (m :: rest)

/-- `counters.slice(0, level + 1).filter(n => n > 0).join('.') + '.'`. -/
def numberLabel (cs : List Nat) (lvl : Nat) : Str :=
  joinDots ((cs.take (lvl + 1)).filter (fun n => 0 < n)) ++ ['.']

/-- One step of the numbering pass: the counter array after processing a
numbered block at level `lvl`. -/
def stepCounters (cs : List Nat) (lvl : Nat) : List Nat :=
  zeroDeeper (bumpCounter (growCounters cs lvl) lvl) lvl

/-- Body of `updateNumberedBlocks`: walk the blocks top to bottom carrying the
per-level counter array; on a numbered block update the counters and rewrite
its marker (the source only writes the marker when a `.number-marker` element
exists, modelled by `marker.isSome`); on any other block reset the counters
(`counters.length = 0`). -/
def updateNumberedGo (counters : List Nat) : List Block → List Block
  | [] => []
  | b :: bs =>
    if b.type = .numbered then
      let cs := stepCounters counters b.level
      let b' := if b.marker.isSome then { b with marker := some (numberLabel cs b.level) } else b
      b' :: updateNumberedGo cs bs
    else
      b :: updateNumberedGo [] bs

/-- `updateNumberedBlocks()` as a pure function of the ordered block list. -/
def updateNumberedBlocks (bs : List Block) : List Block :=
  updateNumberedGo [] bs

/-! ## Indent / outdent (Tab and Shift+Tab keydown handlers) -/

/-- Tab handler effect on one block: `block.dataset.level = currentLevel + 1`. -/
def indentBlock (b : Block) : Block := { b with level := b.level + 1 }

/-- Shift+Tab handler effect on one block:
`if (currentLevel > 0) block.dataset.level = currentLevel - 1`. -/
def outdentBlock (b : Block) : Block :=
  if b.level > 0 then { b with level := b.level - 1 } else b

/-! ## Type-conversion commands (script.js lines 346-445, 737-810) -/

/-- The "Bullet List" command action on one block: a bullet block becomes a
text block and its marker is removed; any other block becomes a bullet block,
an existing marker is replaced by the bullet glyph.  Neither branch touches
`dataset.level`. -/
def toggleBulletBlock (b : Block) : Block :=
  if b.type = .bullet then { b with type := .text, marker := none }
  else { b with type := .bullet, marker := some bulletGlyph }

/-- The "Numbered List" command action on one block, analogous to
`toggleBulletBlock` with the placeholder number marker.  Neither branch
touches `dataset.level`. -/
def toggleNumberedBlock (b : Block) : Block :=
  if b.type = .numbered then { b with type := .text, marker := none }
  else { b with type := .numbered, marker := some numberedPlaceholder }

/-- `applyBlockQuote` on one block: a quote block becomes a text block with
level 0 (its marker is not touched); any other block has its marker removed
and becomes a quote block with level 0. -/
def applyBlockQuoteBlock (b : Block) : Block :=
  if b.type = .quote then { b with type := .text, level := 0 }
  else { b with type := .quote, level := 0, marker := none }

/-- The heading type selected by `applyHeading(level)`; the source is only
invoked with 1, 2 or 3. -/
def headingTypeOf : Nat → BlockType
  | 1 => .heading1
  | 2 => .heading2
  | _ => .heading3

/-- `applyHeading(n)` on one block: remove any marker, convert to the heading
type and set `dataset.level = '0'`. -/
def applyHeadingBlock (n : Nat) (b : Block) : Block :=
  { b with type := headingTypeOf n, level := 0, marker := none }

/-! ## Autoformat on space (beforeinput handler, script.js lines 4176-4255) -/

/-- Backtracking behaviour of the JS regex `^(\d\x7b1,2\x7d)\.` used by the
numbered autoformat pattern: greedily try two digits followed by a dot, then
one digit followed by a dot; returns the length of the matched portion. -/
def matchNumberedPfx : Str → Option Nat
  | c1 :: c2 :: c3 :: _ =>
    if c1.isDigit then
      if c2.isDigit ∧ c3 = '.' then some 3
      else if c2 = '.' then some 2
      else none
    else none
  | [c1, c2] => if c1.isDigit ∧ c2 = '.' then some 2 else none
  | _ => none

/-- The autoformat branch of the `beforeinput` handler, fired when a single
space is about to be inserted.  Given the block's `textContent` before the
space, returns the new block type and the new content (prefix and following
whitespace stripped) when a pattern matches, `none` when the space is let
through.  The `event.preventDefault()` in every matching branch means the
triggering space never reaches the content. -/
def autoformatSpace (textContent : Str) : Option (BlockType × Str) :=
  if textContent.head? = some '>' then
    some (.quote, jsTrimStart (textContent.drop 1))
  else if textContent.head? = some '-' ∨ textContent.head? = some '*' then
    some (.bullet, jsTrimStart (textContent.drop 1))
  else
    match matchNumberedPfx textContent with
    | some k => some (.numbered, jsTrimStart (textContent.drop k))
    | none => none

/-! ## Enter key (keydown handler, script.js lines 3352-3411) -/

/-- Insert an element at position `n` of a list (DOM
`insertBefore(newBlock, currentBlock.nextSibling)` at list level). -/
def insertAt (l : List α) (n : Nat) (a : α) : List α :=
  l.take n ++ a :: l.drop n

/-- The Enter keydown handler.  `doc` is the block list, `i` the index of the
block containing the cursor, `off` the cursor offset in the block's flattened
text.  Returns the new block list and the index of the block passed to
`focusBlock` (always focused at the start: `focusBlock` is called without
`atEnd`).  An empty (whitespace-only `textContent`) bullet or numbered block
is converted to a text block in place; otherwise the text after the cursor
moves to a new block inserted immediately after, of the same type for
bullet/numbered and `text` otherwise, with the current level propagated. -/
def enterKey (doc : List Block) (i : Nat) (off : Nat) : List Block × Nat :=
  match doc[i]? with
  | none => (doc, i)
  | some b =>
    if jsTrim b.content = [] ∧ (b.type = .bullet ∨ b.type = .numbered) then
      (updateNumberedBlocks (doc.set i { b with type := .text, marker := none }), i)
    else
      let afterContent := b.content.drop off
      let newType := if b.type = .bullet ∨ b.type = .numbered then b.type else .text
      let newBlock := createBlockElement newType afterContent b.level
      let doc' := insertAt (doc.set i { b with content := b.content.take off }) (i + 1) newBlock
      (if b.type = .numbered ∨ newType = .numbered then updateNumberedBlocks doc' else doc', i + 1)

/-! ## Backspace key (keydown handler, script.js lines 3413-3510) -/

/-- The Backspace keydown handler at block granularity.  `i` is the index of
the block containing the collapsed cursor and `atStart` records whether the
cursor sits at offset 0 of the block's first content node.  Returns the new
block list together with `some (focusIndex, caretOffset)` when the handler
performs a merge, and `none` when the event is suppressed or left to native
editing (which never changes the block structure for a collapsed cursor).
The merge appends the current block's flattened text to the previous block's
content and removes the current block; the caret is restored at the previous
block's pre-merge text length. -/
def backspaceKeydown (doc : List Block) (i : Nat) (atStart : Bool) :
    List Block × Option (Nat × Nat) :=
  match doc[i]? with
  | none => (doc, none)
  | some cur =>
    if doc.length = 1 ∧ jsTrim cur.content = [] then
      (doc, none)
    else if atStart then
      if i = 0 then (doc, none)
      else
        match doc[i - 1]? with
        | none => (doc, none)
        | some prev =>
          let doc' := ((doc.set (i - 1) { prev with content := prev.content ++ cur.content }).eraseIdx i)
          (updateNumberedBlocks doc', some (i - 1, prev.content.length))
    else (doc, none)

/-! ## Deleting blocks and clearing (script.js lines 812-869, 1174-1197) -/

/-- The blocks that survive deleting the targeted indices. -/
def removeTargets (doc : List Block) (targets : List Nat) : List Block :=
  (doc.enum.filter (fun p => ¬ p.1 ∈ targets)).map (fun p => p.2)

/-- `deleteBlocks()`: remove the targeted blocks; if no block remains,
synthesize one empty text block; then recompute numbering. -/
def deleteBlocksModel (doc : List Block) (targets : List Nat) : List Block :=
  updateNumberedBlocks
    (if (removeTargets doc targets).length = 0 then [createBlockElement .text []]
     else removeTargets doc targets)

/-- `clearAll()` (confirmed): `editor.innerHTML = ""` followed by appending
one empty text block. -/
def clearAllModel : List Block := [createBlockElement .text []]

/-- A block-removing operation of claim C1: a targeted delete, Clear All, or a
Backspace keypress (with its cursor situation). -/
inductive EditOp where
  | del (targets : List Nat)
  | clear
  | backspace (i : Nat) (atStart : Bool)

/-- Apply one block-removing operation to the document. -/
def applyEditOp (doc : List Block) : EditOp → List Block
  | .del targets => deleteBlocksModel doc targets
  | .clear => clearAllModel
  | .backspace i atStart => (backspaceKeydown doc i atStart).1

/-- Apply a sequence of block-removing operations. -/
def applyEditOps (doc : List Block) (ops : List EditOp) : List Block :=
  ops.foldl applyEditOp doc

/-! ## DOM-level content model for the Backspace merge (script.js 3458-3467)

The content region of a block is a sequence of DOM child nodes: text nodes,
`<br>` placeholders, and inline elements (`<b>`, `<i>`, `<s>`, ...) holding
further nodes.  Claim C10 is about the node-level effect of the merge, so it
is modelled here on that node tree rather than on flattened text. -/

mutual
/-- A DOM node inside a `.block-content` region. -/
inductive Inline where
  | text (s : Str)
  | br
  | elem (tag : Str) (children : InlineSeq)
deriving DecidableEq, Repr

/-- A sequence of DOM child nodes. -/
inductive InlineSeq where
  | nil
  | cons (hd : Inline) (tl : InlineSeq)
deriving DecidableEq, Repr
end

mutual
/-- DOM `textContent` of a node. -/
def inlineTextContent : Inline → Str
  | .text s => s
  | .br => []
  | .elem _ cs => seqTextContent cs

/-- DOM `textContent` of a node sequence. -/
def seqTextContent : InlineSeq → Str
  | .nil => []
  | .cons h t => inlineTextContent h ++ seqTextContent t
end

/-- Concatenation of node sequences. -/
def seqAppend : InlineSeq → InlineSeq → InlineSeq
  | .nil, t => t
  | .cons h s, t => .cons h (seqAppend s t)

/-- `lastChild` of a node sequence. -/
def seqLast? : InlineSeq → Option Inline
  | .nil => none
  | .cons h .nil => some h
  | .cons _ (.cons h t) => seqLast? (.cons h t)

/-- The sequence with its last node removed. -/
def seqDropLast : InlineSeq → InlineSeq
  | .nil => .nil
  | .cons _ .nil => .nil
  | .cons h (.cons h' t) => .cons h (seqDropLast (.cons h' t))

/-- Number of top-level nodes in a sequence. -/
def seqLength : InlineSeq → Nat
  | .nil => 0
  | .cons _ t => seqLength t + 1

/-- Boolean membership of a node among the top-level nodes of a sequence. -/
def seqMemB (x : Inline) : InlineSeq → Bool
  | .nil => false
  | .cons h t => x = h ∨ seqMemB x t

/-- `if (lastChild && lastChild.nodeName === 'BR') removeChild(lastChild)`. -/
def removeTrailingBr (s : InlineSeq) : InlineSeq :=
  match seqLast? s with
  | some .br => seqDropLast s
  | _ => s

/-- The content-append step of the Backspace merge: remove a trailing `<br>`
from the previous block's children, then, when the current block's flattened
`textContent` is nonempty, append it as one new text node. -/
def mergeAppendDom (prev cur : InlineSeq) : InlineSeq :=
  let stripped := removeTrailingBr prev
  let t := seqTextContent cur
  if t.length > 0 then seqAppend stripped (.cons (.text t) .nil) else stripped

/-! ## Markdown bridge (script.js `markdownToBlocks` 2378-2427 and
`htmlToMarkdown` 1474-1552) -/

/-- JS `split('\n')`. -/
def splitLines : Str → List Str
  | [] => [[]]
  | c :: cs =>
    if c = '\n' then [] :: splitLines cs
    else
      match splitLines cs with
      | l :: ls => (c :: l) :: ls
      | [] => [[c]]

/-- Number of leading space characters of a line (`line.match(/^ */)`; the JS
pattern matches only the space character). -/
def leadingSpaces (l : Str) : Nat := (l.takeWhile (fun c => c = ' ')).length

/-- The JS test `/^[-*]\s+/` on a line: a `-` or `*` followed by at least one
whitespace character. -/
def isBulletLine (t : Str) : Bool :=
  match t with
  | c1 :: c2 :: _ => (c1 = '-' ∨ c1 = '*') ∧ c2.isWhitespace
  | _ => false

/-- Content left by `replace(/^[-*]\s+/, '')`: the marker and the maximal
following whitespace run are removed. -/
def bulletRest (t : Str) : Str := jsTrimStart (t.drop 1)

/-- The JS test `/^\d+\.\s+/` on a line: one or more digits, a dot, then at
least one whitespace character. -/
def isNumberedLine (t : Str) : Bool :=
  let digits := t.takeWhile (fun c => c.isDigit)
  let rest := t.drop digits.length
  match rest with
  | '.' :: c :: _ => digits.length > 0 ∧ c.isWhitespace
  | _ => false

/-- Content left by `replace(/^\d+\.\s+/, '')`. -/
def numberedRest (t : Str) : Str :=
  jsTrimStart ((t.dropWhile (fun c => c.isDigit)).drop 1)

/-- One iteration of the `markdownToBlocks` loop: classify a line and build
the corresponding block (blank lines become empty text blocks; headings by
leading `#` count; quotes by `> `; bullets by `-`/`*`; numbered by digits and
a dot; indentation level is `floor(leadingSpaces / 2)` and is used only for
list lines; everything else is a text block). -/
def parseLine (line : Str) : Block :=
  let level := leadingSpaces line / 2
  let t := jsTrim line
  if t = [] then createBlockElement .text [] 0
  else if t.take 4 = ['#', '#', '#', ' '] then createBlockElement .heading3 (t.drop 4) 0
  else if t.take 3 = ['#', '#', ' '] then createBlockElement .heading2 (t.drop 3) 0
  else if t.take 2 = ['#', ' '] then createBlockElement .heading1 (t.drop 2) 0
  else if t.take 2 = ['>', ' '] then createBlockElement .quote (t.drop 2) 0
  else if isBulletLine t then createBlockElement .bullet (bulletRest t) level
  else if isNumberedLine t then createBlockElement .numbered (numberedRest t) level
  else createBlockElement .text t 0

/-- `markdownToBlocks(markdown)`: split on newlines and build one block per
line. -/
def markdownToBlocks (markdown : Str) : List Block :=
  (splitLines markdown).map parseLine

/-- Decimal rendering of the counter value (`numberedCounters[level]`). -/
def natChars (n : Nat) : Str := Nat.toDigits 10 n

/-- The `htmlToMarkdown` per-block switch.  `cnt` is the `numberedCounters`
object (level-indexed, absent keys read as 0).  Returns the text appended to
the accumulator and the updated counters. -/
def blockChunk (cnt : Nat → Nat) (b : Block) : Str × (Nat → Nat) :=
  let content := jsTrim b.content
  if content = [] ∧ b.type = .text then (['\n'], fun _ => 0)
  else
    let indent := List.replicate (2 * b.level) ' '
    match b.type with
    | .heading1 => (['#', ' '] ++ content ++ ['\n', '\n'], fun _ => 0)
    | .heading2 => (['#', '#', ' '] ++ content ++ ['\n', '\n'], fun _ => 0)
    | .heading3 => (['#', '#', '#', ' '] ++ content ++ ['\n', '\n'], fun _ => 0)
    | .bullet => (indent ++ ['-', ' '] ++ content ++ ['\n'], fun _ => 0)
    | .numbered =>
      let v := if cnt b.level = 0 then 1 else cnt b.level + 1
      let cnt' : Nat → Nat := fun l => if l = b.level then v else if l > b.level then 0 else cnt l
      (indent ++ natChars v ++ ['.', ' '] ++ content ++ ['\n'], cnt')
    | .quote => (['>', ' '] ++ content ++ ['\n', '\n'], fun _ => 0)
    | .text => ((if content = [] then [] else content ++ ['\n', '\n']), fun _ => 0)

/-- The `blocks.forEach` accumulation of `htmlToMarkdown`. -/
def h2mGo (cnt : Nat → Nat) : List Block → Str
  | [] => []
  | b :: bs =>
    let (chunk, cnt') := blockChunk cnt b
    chunk ++ h2mGo cnt' bs

/-- Single pass of `replace(/\n\x7b3,\x7d/g, '\n\n')`: collapse every run of
three or more newlines to exactly two.  `pending` counts the newlines seen so
far in the current run. -/
def collapseGo (pending : Nat) : Str → Str
  | [] => List.replicate (min pending 2) '\n'
  | c :: rest =>
    if c = '\n' then collapseGo (pending + 1) rest
    else List.replicate (min pending 2) '\n' ++ c :: collapseGo 0 rest

/-- `replace(/\n\x7b3,\x7d/g, '\n\n')`. -/
def collapseNewlines (s : Str) : Str := collapseGo 0 s

/-- `htmlToMarkdown` on the ordered block list (the HTML re-parse performed by
the source to recover the block elements is the identity at this level):
serialize each block, collapse excessive newline runs, and trim. -/
def htmlToMarkdown (bs : List Block) : Str :=
  jsTrim (collapseNewlines (h2mGo (fun _ => 0) bs))

/-! ## Line classification for the markdown round trip (C8) -/

/-- A line is blank when its trimmed text is empty (this is what both
`markdownToBlocks` and `htmlToMarkdown` treat as empty). -/
def isBlankLine (l : Str) : Bool := (jsTrim l).isEmpty

/-- The non-blank lines of a markdown string. -/
def nonblankLines (s : Str) : List Str := (splitLines s).filter (fun l => !isBlankLine l)

/-- The classification of a line under `markdownToBlocks`: the block type and
the extracted content up to whitespace trimming. -/
def classifyLine (l : Str) : BlockType × Str :=
  ((parseLine l).type, jsTrim (parseLine l).content)

/-- The strict classification of a line: the block type and the exact content
that `markdownToBlocks` extracts. -/
def classifyLineStrict (l : Str) : BlockType × Str :=
  ((parseLine l).type, (parseLine l).content)

/-- The line class of claim C8: blank lines, heading lines, flat (non-indented)
bullet lines, and plain paragraphs (lines parsed as `text`). -/
def goodLine (l : Str) : Bool :=
  (jsTrim l).isEmpty ||
  ((jsTrim l).take 4 = ['#', '#', '#', ' '] || (jsTrim l).take 3 = ['#', '#', ' '] ||
    (jsTrim l).take 2 = ['#', ' ']) ||
  (isBulletLine (jsTrim l) && decide (leadingSpaces l < 2)) ||
  (!((jsTrim l).take 2 = ['>', ' ']) && !isBulletLine (jsTrim l) && !isNumberedLine (jsTrim l))

/-- The canonical serialization of a good non-blank line: the line that
`htmlToMarkdown` emits for the block parsed from it. -/
def canonLine (l : Str) : Str :=
  let t := jsTrim l
  if t.take 4 = ['#', '#', '#', ' '] then ['#', '#', '#', ' '] ++ jsTrim (t.drop 4)
  else if t.take 3 = ['#', '#', ' '] then ['#', '#', ' '] ++ jsTrim (t.drop 3)
  else if t.take 2 = ['#', ' '] then ['#', ' '] ++ jsTrim (t.drop 2)
  else if isBulletLine t then ['-', ' '] ++ jsTrim (bulletRest t)
  else t

/-- Join a list of lines, terminating each with a newline. -/
def joinLines : List Str → Str
  | [] => []
  | l :: ls => l ++ '\n' :: joinLines ls

/-! ## Whitespace-trimming lemmas -/

theorem dropWhile_head_not {α : Type} {p : α → Bool} {l : List α} {c : α} {t : List α}
    (h : l.dropWhile p = c :: t) : p c = false := by
  have h2 := List.head?_dropWhile_not p l
  rw [h] at h2
  simpa using h2

theorem dropWhile_idem {α : Type} (p : α → Bool) (l : List α) :
    (l.dropWhile p).dropWhile p = l.dropWhile p := by
  cases h : l.dropWhile p with
  | nil => rfl
  | cons c t =>
    rw [List.dropWhile_cons, if_neg (by simp [dropWhile_head_not h])]

theorem jsTrimStart_idem (l : Str) : jsTrimStart (jsTrimStart l) = jsTrimStart l :=
  dropWhile_idem _ l

theorem jsTrimEnd_idem (l : Str) : jsTrimEnd (jsTrimEnd l) = jsTrimEnd l := by
  unfold jsTrimEnd
  rw [List.reverse_reverse, dropWhile_idem]

theorem jsTrim_jsTrimStart (l : Str) : jsTrim (jsTrimStart l) = jsTrim l := by
  unfold jsTrim
  rw [jsTrimStart_idem]

theorem jsTrimStart_eq_nil_iff (l : Str) :
    jsTrimStart l = [] ↔ l.all (fun c => c.isWhitespace) = true := by
  unfold jsTrimStart
  rw [List.dropWhile_eq_nil_iff, List.all_eq_true]

theorem jsTrimEnd_eq_nil_iff (l : Str) :
    jsTrimEnd l = [] ↔ l.all (fun c => c.isWhitespace) = true := by
  unfold jsTrimEnd
  constructor
  · intro h
    have h2 : l.reverse.dropWhile (fun c => c.isWhitespace) = [] := by
      have h3 := congrArg List.reverse h
      simpa using h3
    rw [List.dropWhile_eq_nil_iff] at h2
    rw [List.all_eq_true]
    intro x hx
    exact h2 x (by simpa using hx)
  · intro h
    rw [List.all_eq_true] at h
    have h2 : l.reverse.dropWhile (fun c => c.isWhitespace) = [] := by
      rw [List.dropWhile_eq_nil_iff]
      intro x hx
      exact h x (by simpa using hx)
    simp [h2]

theorem mem_jsTrimStart (x : Char) (l : Str) (h : x ∈ jsTrimStart l) : x ∈ l :=
  List.Sublist.mem h (List.dropWhile_sublist _)

theorem mem_jsTrimEnd (x : Char) (l : Str) (h : x ∈ jsTrimEnd l) : x ∈ l := by
  unfold jsTrimEnd at h
  rw [List.mem_reverse] at h
  have h2 := List.Sublist.mem h (List.dropWhile_sublist (l := l.reverse) _)
  simpa using h2

theorem mem_jsTrim (x : Char) (l : Str) (h : x ∈ jsTrim l) : x ∈ l :=
  mem_jsTrimStart x l (mem_jsTrimEnd x (jsTrimStart l) h)

theorem jsTrim_eq_nil_iff (l : Str) :
    jsTrim l = [] ↔ l.all (fun c => c.isWhitespace) = true := by
  unfold jsTrim
  rw [jsTrimEnd_eq_nil_iff]
  constructor
  · intro h
    rw [List.all_eq_true] at h ⊢
    intro x hx
    have h3 := List.takeWhile_append_dropWhile (fun c => c.isWhitespace) l
    rw [← h3] at hx
    rcases List.mem_append.mp hx with h1 | h1
    · exact List.mem_takeWhile_imp h1
    · exact h x (by simpa only [jsTrimStart] using h1)
  · intro h
    rw [List.all_eq_true] at h ⊢
    intro x hx
    exact h x (mem_jsTrimStart x l hx)

theorem isBlankLine_iff_all (l : Str) :
    isBlankLine l = true ↔ l.all (fun c => c.isWhitespace) = true := by
  rw [isBlankLine, List.isEmpty_iff, jsTrim_eq_nil_iff]

theorem jsTrimEnd_cons (c : Char) (s : Str) :
    jsTrimEnd (c :: s) =
      if (c :: s).all (fun c => c.isWhitespace) then [] else c :: jsTrimEnd s := by
  by_cases hall : (c :: s).all (fun c => c.isWhitespace) = true
  · rw [if_pos hall]
    exact (jsTrimEnd_eq_nil_iff _).mpr hall
  · rw [if_neg hall]
    unfold jsTrimEnd
    rw [List.reverse_cons, List.dropWhile_append]
    by_cases hs : s.all (fun c => c.isWhitespace) = true
    · have hs' : s.reverse.dropWhile (fun c => c.isWhitespace) = [] := by
        rw [List.dropWhile_eq_nil_iff]
        rw [List.all_eq_true] at hs
        intro x hx
        exact hs x (by simpa using hx)
      have hc : c.isWhitespace = false := by
        by_contra hcc
        simp only [Bool.not_eq_false] at hcc
        exact hall (by simp [List.all_cons, hcc, hs])
      rw [if_pos (by simp [hs'])]
      simp [List.dropWhile, hc, hs']
    · have hs' : s.reverse.dropWhile (fun c => c.isWhitespace) ≠ [] := by
        rw [Ne, List.dropWhile_eq_nil_iff]
        intro hw
        apply hs
        rw [List.all_eq_true]
        intro x hx
        exact hw x (by simpa using hx)
      rw [if_neg (by simpa [List.isEmpty_iff] using hs')]
      rw [List.reverse_append]
      simp

theorem jsTrimStart_cons_ws (c : Char) (l : Str) (hc : c.isWhitespace = true) :
    jsTrimStart (c :: l) = jsTrimStart l := by
  unfold jsTrimStart
  rw [List.dropWhile_cons, if_pos hc]

theorem jsTrim_cons_ws (c : Char) (l : Str) (hc : c.isWhitespace = true) :
    jsTrim (c :: l) = jsTrim l := by
  unfold jsTrim jsTrimStart
  rw [List.dropWhile_cons, if_pos hc]

theorem jsTrim_cons_not_ws (c : Char) (l : Str) (hc : c.isWhitespace = false) :
    jsTrim (c :: l) = jsTrimEnd (c :: l) := by
  unfold jsTrim jsTrimStart
  rw [List.dropWhile_cons, if_neg (by simp [hc])]

theorem jsTrim_jsTrimEnd : ∀ l : Str, jsTrim (jsTrimEnd l) = jsTrim l
  | [] => rfl
  | c :: l' => by
    rw [jsTrimEnd_cons]
    by_cases hall : (c :: l').all (fun c => c.isWhitespace) = true
    · rw [if_pos hall]
      have h0 : jsTrim (c :: l') = [] := (jsTrim_eq_nil_iff _).mpr hall
      rw [h0]
      rfl
    · rw [if_neg hall]
      by_cases hc : c.isWhitespace = true
      · rw [jsTrim_cons_ws c _ hc, jsTrim_cons_ws c _ hc]
        exact jsTrim_jsTrimEnd l'
      · have hc' : c.isWhitespace = false := by simpa using hc
        rw [jsTrim_cons_not_ws c _ hc', jsTrim_cons_not_ws c _ hc']
        rw [jsTrimEnd_cons, jsTrimEnd_cons]
        have h1 : ((c :: jsTrimEnd l').all (fun c => c.isWhitespace)) = false := by
          simp [List.all_cons, hc']
        have h2 : ((c :: l').all (fun c => c.isWhitespace)) = false := by
          simp [List.all_cons, hc']
        rw [h1, h2]
        simp [jsTrimEnd_idem]

theorem jsTrim_idem (l : Str) : jsTrim (jsTrim l) = jsTrim l := by
  have h1 : jsTrim (jsTrimEnd (jsTrimStart l)) = jsTrim (jsTrimStart l) :=
    jsTrim_jsTrimEnd (jsTrimStart l)
  have h2 : jsTrim (jsTrimStart l) = jsTrim l := jsTrim_jsTrimStart l
  exact h1.trans h2

theorem jsTrimEnd_append_allws (a b : Str) (h : b.all (fun c => c.isWhitespace) = true) :
    jsTrimEnd (a ++ b) = jsTrimEnd a := by
  unfold jsTrimEnd
  rw [List.reverse_append, List.dropWhile_append]
  have hb : b.reverse.dropWhile (fun c => c.isWhitespace) = [] := by
    rw [List.dropWhile_eq_nil_iff]
    rw [List.all_eq_true] at h
    intro x hx
    exact h x (by simpa using hx)
  rw [if_pos (by simp [hb])]

theorem jsTrimEnd_append_nonws (a b : Str) (h : ¬ b.all (fun c => c.isWhitespace) = true) :
    jsTrimEnd (a ++ b) = a ++ jsTrimEnd b := by
  unfold jsTrimEnd
  rw [List.reverse_append, List.dropWhile_append]
  have hb : b.reverse.dropWhile (fun c => c.isWhitespace) ≠ [] := by
    rw [Ne, List.dropWhile_eq_nil_iff]
    intro hw
    apply h
    rw [List.all_eq_true]
    intro x hx
    exact hw x (by simpa using hx)
  rw [if_neg (by simpa [List.isEmpty_iff] using hb)]
  rw [List.reverse_append, List.reverse_reverse]

theorem jsTrimStart_append_allws (a b : Str) (h : a.all (fun c => c.isWhitespace) = true) :
    jsTrimStart (a ++ b) = jsTrimStart b := by
  unfold jsTrimStart
  rw [List.dropWhile_append]
  have ha : a.dropWhile (fun c => c.isWhitespace) = [] := by
    rw [List.dropWhile_eq_nil_iff]
    rw [List.all_eq_true] at h
    exact h
  rw [if_pos (by simp [ha])]

theorem jsTrimStart_append_nonws (a b : Str) (h : ¬ a.all (fun c => c.isWhitespace) = true) :
    jsTrimStart (a ++ b) = jsTrimStart a ++ b := by
  unfold jsTrimStart
  rw [List.dropWhile_append]
  have ha : a.dropWhile (fun c => c.isWhitespace) ≠ [] := by
    rw [Ne, List.dropWhile_eq_nil_iff]
    intro hw
    apply h
    rw [List.all_eq_true]
    exact hw
  rw [if_neg (by simpa [List.isEmpty_iff] using ha)]

/-! ## Head and last character lemmas for trimmed strings -/

theorem jsTrimEnd_head? (l : Str) (h : jsTrimEnd l ≠ []) :
    (jsTrimEnd l).head? = l.head? := by
  cases l with
  | nil => simp [jsTrimEnd] at h
  | cons c s =>
    rw [jsTrimEnd_cons] at h ⊢
    by_cases hall : (c :: s).all (fun c => c.isWhitespace) = true
    · rw [if_pos hall] at h
      exact absurd rfl h
    · rw [if_neg hall]
      rfl

theorem jsTrim_head_not_ws (l : Str) (c : Char) (t : Str) (h : jsTrim l = c :: t) :
    c.isWhitespace = false := by
  have hne : jsTrimEnd (jsTrimStart l) ≠ [] := by
    intro h0
    rw [show jsTrimEnd (jsTrimStart l) = jsTrim l from rfl, h] at h0
    cases h0
  have hh := jsTrimEnd_head? (jsTrimStart l) hne
  rw [show jsTrimEnd (jsTrimStart l) = jsTrim l from rfl, h] at hh
  cases hs : jsTrimStart l with
  | nil => rw [hs] at hh; simp at hh
  | cons c' t' =>
    rw [hs] at hh
    simp only [List.head?_cons, Option.some.injEq] at hh
    have := dropWhile_head_not (p := fun c => c.isWhitespace) (l := l) (by simpa [jsTrimStart] using hs)
    rw [← hh] at this
    exact this

theorem getLast?_mem (l : Str) (d : Char) (h : l.getLast? = some d) : d ∈ l := by
  rw [← List.head?_reverse] at h
  cases hr : l.reverse with
  | nil => rw [hr] at h; simp at h
  | cons x t =>
    rw [hr] at h
    simp only [List.head?_cons, Option.some.injEq] at h
    subst h
    have hm : x ∈ l.reverse := by rw [hr]; exact List.mem_cons_self x t
    simpa using hm

theorem getLast?_reverse_eq (l : Str) : l.reverse.getLast? = l.head? := by
  rw [← List.head?_reverse, List.reverse_reverse]

theorem jsTrimEnd_getLast?_not_ws (l : Str) (d : Char)
    (h : (jsTrimEnd l).getLast? = some d) : d.isWhitespace = false := by
  unfold jsTrimEnd at h
  rw [getLast?_reverse_eq] at h
  cases hd : l.reverse.dropWhile (fun c => c.isWhitespace) with
  | nil => rw [hd] at h; simp at h
  | cons x t =>
    rw [hd] at h
    simp only [List.head?_cons, Option.some.injEq] at h
    subst h
    exact dropWhile_head_not hd

theorem jsTrim_getLast?_not_ws (l : Str) (d : Char)
    (h : (jsTrim l).getLast? = some d) : d.isWhitespace = false :=
  jsTrimEnd_getLast?_not_ws (jsTrimStart l) d h

theorem jsTrimEnd_eq_self (l : Str)
    (h : ∀ d, l.getLast? = some d → d.isWhitespace = false) : jsTrimEnd l = l := by
  cases hr : l.reverse with
  | nil =>
    have : l = [] := by simpa using congrArg List.reverse hr
    simp [this, jsTrimEnd]
  | cons d r =>
    have hd : l.getLast? = some d := by rw [← List.head?_reverse, hr]; rfl
    unfold jsTrimEnd
    rw [hr, List.dropWhile_cons, if_neg (by simp [h d hd])]
    rw [← hr, List.reverse_reverse]

theorem jsTrimStart_eq_self (l : Str)
    (h : ∀ c, l.head? = some c → c.isWhitespace = false) : jsTrimStart l = l := by
  cases l with
  | nil => rfl
  | cons c t =>
    unfold jsTrimStart
    rw [List.dropWhile_cons, if_neg (by simp [h c rfl])]

theorem jsTrim_eq_self (l : Str)
    (hh : ∀ c, l.head? = some c → c.isWhitespace = false)
    (hl : ∀ d, l.getLast? = some d → d.isWhitespace = false) : jsTrim l = l := by
  unfold jsTrim
  rw [jsTrimStart_eq_self l hh, jsTrimEnd_eq_self l hl]

theorem getLast?_append_of_ne (a b : Str) (h : b ≠ []) :
    (a ++ b).getLast? = b.getLast? := by
  rw [List.getLast?_append]
  cases hb : b.getLast? with
  | none =>
    exfalso
    apply h
    rw [← List.head?_reverse] at hb
    have hbr : b.reverse = [] := by
      cases hr : b.reverse with
      | nil => rfl
      | cons x t => rw [hr] at hb; cases hb
    simpa using congrArg List.reverse hbr
  | some d => rfl

theorem jsTrimStart_getLast? (l : Str) (h : jsTrimStart l ≠ []) :
    (jsTrimStart l).getLast? = l.getLast? := by
  conv_rhs => rw [← List.takeWhile_append_dropWhile (fun c => c.isWhitespace) l]
  rw [getLast?_append_of_ne _ _ (by simpa [jsTrimStart] using h)]
  rfl

theorem drop_getLast? (l : Str) (n : Nat) (h : l.drop n ≠ []) :
    (l.drop n).getLast? = l.getLast? := by
  conv_rhs => rw [← List.take_append_drop n l]
  rw [getLast?_append_of_ne _ _ h]

/-! ## splitLines lemmas -/

theorem splitLines_ne_nil : ∀ s : Str, splitLines s ≠ []
  | [] => by simp [splitLines]
  | c :: cs => by
    unfold splitLines
    split
    · simp
    · split <;> simp

theorem splitLines_nl (s : Str) : splitLines ('\n' :: s) = [] :: splitLines s := by
  conv_lhs => unfold splitLines
  rw [if_pos rfl]

theorem splitLines_cons_ne (c : Char) (s : Str) (hc : ¬ c = '\n') :
    splitLines (c :: s) =
      match splitLines s with
      | l :: ls => (c :: l) :: ls
      | [] => [[c]] := by
  conv_lhs => unfold splitLines
  rw [if_neg hc]

theorem mem_splitLines : ∀ (s : Str) (l : Str), l ∈ splitLines s →
    ∀ c ∈ l, c ∈ s ∧ ¬ c = '\n'
  | [], l, hl => by
    simp only [splitLines, List.mem_singleton] at hl
    subst hl
    intro c hc
    simp at hc
  | c :: cs, l, hl => by
    intro x hx
    by_cases hc : c = '\n'
    · subst hc
      rw [splitLines_nl] at hl
      rcases List.mem_cons.mp hl with h1 | h1
      · subst h1; simp at hx
      · have := mem_splitLines cs l h1 x hx
        exact ⟨List.mem_cons_of_mem _ this.1, this.2⟩
    · rw [splitLines_cons_ne c cs hc] at hl
      cases hs : splitLines cs with
      | nil => exact absurd hs (splitLines_ne_nil cs)
      | cons l0 ls =>
        rw [hs] at hl
        rcases List.mem_cons.mp hl with h1 | h1
        · subst h1
          rcases List.mem_cons.mp hx with h2 | h2
          · subst h2; exact ⟨List.mem_cons_self x cs, hc⟩
          · have := mem_splitLines cs l0 (by rw [hs]; exact List.mem_cons_self l0 ls) x h2
            exact ⟨List.mem_cons_of_mem _ this.1, this.2⟩
        · have := mem_splitLines cs l (by rw [hs]; exact List.mem_cons_of_mem _ h1) x hx
          exact ⟨List.mem_cons_of_mem _ this.1, this.2⟩

theorem splitLines_append_nl : ∀ (a b : Str), '\n' ∉ a →
    splitLines (a ++ '\n' :: b) = a :: splitLines b
  | [], b, _ => by simp [splitLines_nl]
  | c :: a', b, h => by
    have hc : ¬ c = '\n' := by
      intro hc; exact h (hc ▸ List.mem_cons_self c a')
    have ha' : '\n' ∉ a' := fun hm => h (List.mem_cons_of_mem _ hm)
    rw [List.cons_append, splitLines_cons_ne c _ hc,
      splitLines_append_nl a' b ha']

theorem splitLines_no_nl : ∀ a : Str, '\n' ∉ a → splitLines a = [a]
  | [], _ => rfl
  | c :: a', h => by
    have hc : ¬ c = '\n' := by
      intro hc; exact h (hc ▸ List.mem_cons_self c a')
    have ha' : '\n' ∉ a' := fun hm => h (List.mem_cons_of_mem _ hm)
    rw [splitLines_cons_ne c _ hc, splitLines_no_nl a' ha']

theorem splitLines_replicate_nl : ∀ (k : Nat) (b : Str),
    splitLines (List.replicate k '\n' ++ b) = List.replicate k [] ++ splitLines b
  | 0, b => rfl
  | k + 1, b => by
    rw [List.replicate_succ, List.cons_append, splitLines_nl,
      splitLines_replicate_nl k b, List.replicate_succ, List.cons_append]

/-! ## Non-blank-line projections -/

/-- The non-blank entries of a line list, mapped through `g`. -/
def nbOf {α : Type} (g : Str → α) (ls : List Str) : List α :=
  (ls.filter (fun l => !isBlankLine l)).map g

/-- The non-blank lines of a string, mapped through `g`. -/
def nbMap {α : Type} (g : Str → α) (s : Str) : List α := nbOf g (splitLines s)

theorem nbOf_cons {α : Type} (g : Str → α) (l : Str) (ls : List Str) :
    nbOf g (l :: ls) = (if isBlankLine l then [] else [g l]) ++ nbOf g ls := by
  by_cases h : isBlankLine l = true
  · simp [nbOf, List.filter_cons, h]
  · simp only [Bool.not_eq_true] at h
    simp [nbOf, List.filter_cons, h]

theorem nbOf_append {α : Type} (g : Str → α) (a b : List Str) :
    nbOf g (a ++ b) = nbOf g a ++ nbOf g b := by
  simp [nbOf, List.filter_append]

theorem isBlankLine_nil : isBlankLine [] = true := rfl

theorem nbOf_blankrep {α : Type} (g : Str → α) (j : Nat) :
    nbOf g (List.replicate j []) = [] := by
  simp [nbOf, List.filter_replicate, isBlankLine_nil]

theorem nbMap_allws {α : Type} (g : Str → α) (s : Str)
    (h : s.all (fun c => c.isWhitespace) = true) : nbMap g s = [] := by
  unfold nbMap nbOf
  have hf : (splitLines s).filter (fun l => !isBlankLine l) = [] := by
    rw [List.filter_eq_nil_iff]
    intro l hl
    simp only [Bool.not_eq_true', Bool.not_eq_false]
    rw [isBlankLine_iff_all, List.all_eq_true]
    intro c hc
    rw [List.all_eq_true] at h
    exact h c (mem_splitLines s l hl c hc).1
  rw [hf]
  rfl

theorem isBlankLine_congr (l₁ l₂ : Str) (h : jsTrim l₁ = jsTrim l₂) :
    isBlankLine l₁ = isBlankLine l₂ := by
  unfold isBlankLine
  rw [h]

/-- First-line decomposition of a string containing a newline. -/
theorem exists_firstLine_split : ∀ s : Str, '\n' ∈ s →
    ∃ l₀ r, s = l₀ ++ '\n' :: r ∧ '\n' ∉ l₀
  | [], h => absurd h (by simp)
  | c :: cs, h => by
    by_cases hc : c = '\n'
    · exact ⟨[], cs, by rw [hc]; rfl, by simp⟩
    · have hcs : '\n' ∈ cs := by
        rcases List.mem_cons.mp h with h1 | h1
        · exact absurd h1.symm hc
        · exact h1
      obtain ⟨l₀, r, h1, h2⟩ := exists_firstLine_split cs hcs
      exact ⟨c :: l₀, r, by rw [List.cons_append, h1],
        by simp [h2]; exact fun he => hc he.symm⟩

/-- Leading-newline-run decomposition. -/
theorem exists_nl_run : ∀ r : Str,
    ∃ k r', r = List.replicate k '\n' ++ r' ∧ r'.head? ≠ some '\n'
  | [] => ⟨0, [], rfl, by simp⟩
  | c :: cs => by
    by_cases hc : c = '\n'
    · obtain ⟨k, r', h1, h2⟩ := exists_nl_run cs
      exact ⟨k + 1, r', by rw [List.replicate_succ, List.cons_append, ← h1, hc], h2⟩
    · exact ⟨0, c :: cs, rfl, by simpa using hc⟩

/-! ## The newline-collapsing pass preserves non-blank lines -/

/-- The continuation of `collapseGo` after a newline run. -/
def collapseTail : Str → Str
  | [] => []
  | c :: r' => c :: collapseGo 0 r'

theorem collapseGo_nil (n : Nat) : collapseGo n [] = List.replicate (min n 2) '\n' := by
  conv_lhs => unfold collapseGo

theorem collapseGo_nl (n : Nat) (x : Str) : collapseGo n ('\n' :: x) = collapseGo (n + 1) x := by
  conv_lhs => unfold collapseGo
  rw [if_pos rfl]

theorem collapseGo_cons_ne (n : Nat) (c : Char) (x : Str) (hc : ¬ c = '\n') :
    collapseGo n (c :: x) = List.replicate (min n 2) '\n' ++ c :: collapseGo 0 x := by
  conv_lhs => unfold collapseGo
  rw [if_neg hc]

theorem collapseGo_zero_append : ∀ (a b : Str), '\n' ∉ a →
    collapseGo 0 (a ++ b) = a ++ collapseGo 0 b
  | [], b, _ => rfl
  | c :: a', b, h => by
    have hc : ¬ c = '\n' := fun hc => h (hc ▸ List.mem_cons_self c a')
    have ha' : '\n' ∉ a' := fun hm => h (List.mem_cons_of_mem _ hm)
    rw [List.cons_append, collapseGo_cons_ne 0 c _ hc, collapseGo_zero_append a' b ha']
    simp

theorem collapseGo_zero_no_nl (a : Str) (h : '\n' ∉ a) : collapseGo 0 a = a := by
  have h2 := collapseGo_zero_append a [] h
  simpa [collapseGo_nil] using h2

theorem collapseGo_run : ∀ (k n : Nat) (r : Str), r.head? ≠ some '\n' →
    collapseGo n (List.replicate k '\n' ++ r) =
      List.replicate (min (n + k) 2) '\n' ++ collapseTail r
  | 0, n, r, h => by
    cases r with
    | nil => simp [collapseGo_nil, collapseTail]
    | cons c r' =>
      have hc : ¬ c = '\n' := by simpa using h
      simp only [List.replicate, List.nil_append]
      rw [collapseGo_cons_ne n c r' hc]
      simp [collapseTail]
  | k + 1, n, r, h => by
    rw [List.replicate_succ, List.cons_append, collapseGo_nl,
      collapseGo_run k (n + 1) r h]
    have h2 : n + 1 + k = n + (k + 1) := by omega
    rw [h2]

theorem collapseTail_eq (r : Str) (h : r.head? ≠ some '\n') :
    collapseTail r = collapseNewlines r := by
  cases r with
  | nil => rfl
  | cons c r' =>
    have hc : ¬ c = '\n' := by simpa using h
    rw [show collapseNewlines (c :: r') = collapseGo 0 (c :: r') from rfl,
      collapseGo_cons_ne 0 c r' hc]
    rfl

theorem collapse_nb {α : Type} (g : Str → α) : ∀ (n : Nat) (s : Str), s.length ≤ n →
    nbMap g (collapseNewlines s) = nbMap g s := by
  intro n
  induction n with
  | zero =>
    intro s hs
    have h0 : s = [] := by
      cases s with
      | nil => rfl
      | cons c t => simp at hs
    subst h0
    rfl
  | succ n ih =>
    intro s hs
    by_cases hnl : '\n' ∈ s
    · obtain ⟨l₀, r, hse, hl₀⟩ := exists_firstLine_split s hnl
      obtain ⟨k, r', hre, hr'⟩ := exists_nl_run r
      have hrlen : r'.length ≤ n := by
        have h1 : s.length = l₀.length + (1 + (k + r'.length)) := by
          rw [hse, hre]
          simp [List.length_append, List.length_replicate]
          omega
        omega
      obtain ⟨m, hm⟩ : ∃ m, min (1 + k) 2 = m + 1 := ⟨min (1 + k) 2 - 1, by omega⟩
      have hlhs : collapseNewlines s =
          l₀ ++ '\n' :: (List.replicate m '\n' ++ collapseTail r') := by
        rw [show collapseNewlines s = collapseGo 0 s from rfl, hse,
          collapseGo_zero_append l₀ _ hl₀, collapseGo_nl, hre,
          collapseGo_run k 1 r' hr', hm, List.replicate_succ]
        simp
      rw [hlhs]
      rw [show ∀ x : Str, nbMap g x = nbOf g (splitLines x) from fun _ => rfl,
        splitLines_append_nl _ _ hl₀, nbOf_cons, splitLines_replicate_nl,
        nbOf_append, nbOf_blankrep, collapseTail_eq r' hr']
      conv_rhs =>
        rw [hse, show ∀ x : Str, nbMap g x = nbOf g (splitLines x) from fun _ => rfl,
          splitLines_append_nl _ _ hl₀, nbOf_cons, hre, splitLines_replicate_nl,
          nbOf_append, nbOf_blankrep]
      have hihr := ih r' hrlen
      rw [show ∀ x : Str, nbMap g x = nbOf g (splitLines x) from fun _ => rfl] at hihr
      rw [show ∀ x : Str, nbMap g x = nbOf g (splitLines x) from fun _ => rfl] at hihr
      rw [hihr]
    · rw [show collapseNewlines s = collapseGo 0 s from rfl, collapseGo_zero_no_nl s hnl]

/-! ## Trimming the whole string preserves its non-blank lines (up to
per-line trimming) -/

theorem trimStart_nb {α : Type} (g : Str → α)
    (hg : ∀ l₁ l₂ : Str, jsTrim l₁ = jsTrim l₂ → g l₁ = g l₂) :
    ∀ (n : Nat) (s : Str), s.length ≤ n → nbMap g (jsTrimStart s) = nbMap g s := by
  intro n
  induction n with
  | zero =>
    intro s hs
    have h0 : s = [] := by
      cases s with
      | nil => rfl
      | cons c t => simp at hs
    subst h0
    rfl
  | succ n ih =>
    intro s hs
    by_cases hnl : '\n' ∈ s
    · obtain ⟨l₀, r, hse, hl₀⟩ := exists_firstLine_split s hnl
      have hrlen : r.length ≤ n := by
        have h1 : s.length = l₀.length + (1 + r.length) := by
          rw [hse]; simp [List.length_append]; omega
        omega
      by_cases hall : l₀.all (fun c => c.isWhitespace) = true
      · have h1 : jsTrimStart s = jsTrimStart r := by
          rw [hse, jsTrimStart_append_allws _ _ hall]
          unfold jsTrimStart
          rw [List.dropWhile_cons, if_pos (by decide)]
        rw [h1, ih r hrlen]
        conv_rhs =>
          rw [hse, show ∀ x : Str, nbMap g x = nbOf g (splitLines x) from fun _ => rfl,
            splitLines_append_nl _ _ hl₀, nbOf_cons]
        have hbl : isBlankLine l₀ = true := (isBlankLine_iff_all l₀).mpr hall
        rw [hbl]
        simp [nbMap]
      · have h1 : jsTrimStart s = jsTrimStart l₀ ++ '\n' :: r := by
          rw [hse, jsTrimStart_append_nonws _ _ hall]
        have hnl₀ : '\n' ∉ jsTrimStart l₀ := fun hm => hl₀ (mem_jsTrimStart _ _ hm)
        rw [h1, show ∀ x : Str, nbMap g x = nbOf g (splitLines x) from fun _ => rfl,
          splitLines_append_nl _ _ hnl₀, nbOf_cons]
        conv_rhs =>
          rw [hse, show ∀ x : Str, nbMap g x = nbOf g (splitLines x) from fun _ => rfl,
            splitLines_append_nl _ _ hl₀, nbOf_cons]
        have heq : jsTrim (jsTrimStart l₀) = jsTrim l₀ := jsTrim_jsTrimStart l₀
        rw [isBlankLine_congr _ _ heq, hg _ _ heq]
    · have h1 : '\n' ∉ jsTrimStart s := fun hm => hnl (mem_jsTrimStart _ _ hm)
      rw [show ∀ x : Str, nbMap g x = nbOf g (splitLines x) from fun _ => rfl,
        splitLines_no_nl _ h1]
      conv_rhs =>
        rw [show ∀ x : Str, nbMap g x = nbOf g (splitLines x) from fun _ => rfl,
          splitLines_no_nl _ hnl]
      rw [nbOf_cons, nbOf_cons]
      have heq : jsTrim (jsTrimStart s) = jsTrim s := jsTrim_jsTrimStart s
      rw [isBlankLine_congr _ _ heq, hg _ _ heq]

theorem trimEnd_nb {α : Type} (g : Str → α)
    (hg : ∀ l₁ l₂ : Str, jsTrim l₁ = jsTrim l₂ → g l₁ = g l₂) :
    ∀ (n : Nat) (s : Str), s.length ≤ n → nbMap g (jsTrimEnd s) = nbMap g s := by
  intro n
  induction n with
  | zero =>
    intro s hs
    have h0 : s = [] := by
      cases s with
      | nil => rfl
      | cons c t => simp at hs
    subst h0
    rfl
  | succ n ih =>
    intro s hs
    by_cases hnl : '\n' ∈ s
    · obtain ⟨l₀, r, hse, hl₀⟩ := exists_firstLine_split s hnl
      have hrlen : r.length ≤ n := by
        have h1 : s.length = l₀.length + (1 + r.length) := by
          rw [hse]; simp [List.length_append]; omega
        omega
      by_cases hall : (('\n' :: r).all (fun c => c.isWhitespace)) = true
      · have h1 : jsTrimEnd s = jsTrimEnd l₀ := by
          rw [hse]; exact jsTrimEnd_append_allws l₀ _ hall
        have hnl₀e : '\n' ∉ jsTrimEnd l₀ := fun hm => hl₀ (mem_jsTrimEnd _ _ hm)
        rw [h1, show ∀ x : Str, nbMap g x = nbOf g (splitLines x) from fun _ => rfl,
          splitLines_no_nl _ hnl₀e, nbOf_cons]
        conv_rhs =>
          rw [hse, show ∀ x : Str, nbMap g x = nbOf g (splitLines x) from fun _ => rfl,
            splitLines_append_nl _ _ hl₀, nbOf_cons]
        have hr : r.all (fun c => c.isWhitespace) = true := by
          simpa [List.all_cons] using hall
        have hre : nbOf g (splitLines r) = [] := nbMap_allws g r hr
        rw [hre]
        have heq : jsTrim (jsTrimEnd l₀) = jsTrim l₀ := jsTrim_jsTrimEnd l₀
        rw [isBlankLine_congr _ _ heq, hg _ _ heq]
        simp [nbOf]
      · have h1 : jsTrimEnd s = l₀ ++ '\n' :: jsTrimEnd r := by
          rw [hse, jsTrimEnd_append_nonws _ _ (by simpa using hall), jsTrimEnd_cons,
            if_neg (by simpa using hall)]
        rw [h1, show ∀ x : Str, nbMap g x = nbOf g (splitLines x) from fun _ => rfl,
          splitLines_append_nl _ _ hl₀, nbOf_cons]
        conv_rhs =>
          rw [hse, show ∀ x : Str, nbMap g x = nbOf g (splitLines x) from fun _ => rfl,
            splitLines_append_nl _ _ hl₀, nbOf_cons]
        have hihr := ih r hrlen
        rw [show ∀ x : Str, nbMap g x = nbOf g (splitLines x) from fun _ => rfl] at hihr
        rw [show ∀ x : Str, nbMap g x = nbOf g (splitLines x) from fun _ => rfl] at hihr
        rw [hihr]
    · have h1 : '\n' ∉ jsTrimEnd s := fun hm => hnl (mem_jsTrimEnd _ _ hm)
      rw [show ∀ x : Str, nbMap g x = nbOf g (splitLines x) from fun _ => rfl,
        splitLines_no_nl _ h1]
      conv_rhs =>
        rw [show ∀ x : Str, nbMap g x = nbOf g (splitLines x) from fun _ => rfl,
          splitLines_no_nl _ hnl]
      rw [nbOf_cons, nbOf_cons]
      have heq : jsTrim (jsTrimEnd s) = jsTrim s := jsTrim_jsTrimEnd s
      rw [isBlankLine_congr _ _ heq, hg _ _ heq]

theorem jsTrim_nb {α : Type} (g : Str → α)
    (hg : ∀ l₁ l₂ : Str, jsTrim l₁ = jsTrim l₂ → g l₁ = g l₂) (s : Str) :
    nbMap g (jsTrim s) = nbMap g s := by
  have h1 : nbMap g (jsTrimEnd (jsTrimStart s)) = nbMap g (jsTrimStart s) :=
    trimEnd_nb g hg (jsTrimStart s).length (jsTrimStart s) le_rfl
  have h2 : nbMap g (jsTrimStart s) = nbMap g s :=
    trimStart_nb g hg s.length s le_rfl
  exact h1.trans h2

theorem collapse_nb_all {α : Type} (g : Str → α) (s : Str) :
    nbMap g (collapseNewlines s) = nbMap g s :=
  collapse_nb g s.length s le_rfl

/-! ## Lines emitted by the serializer for parsed blocks -/

/-- The lines emitted by the `htmlToMarkdown` switch for one non-numbered
block (each chunk of the accumulator is a newline-terminated line, plus a
blank line for the double-newline block types). -/
def blockLines (b : Block) : List Str :=
  if jsTrim b.content = [] ∧ b.type = .text then [[]]
  else
    match b.type with
    | .heading1 => [['#', ' '] ++ jsTrim b.content, []]
    | .heading2 => [['#', '#', ' '] ++ jsTrim b.content, []]
    | .heading3 => [['#', '#', '#', ' '] ++ jsTrim b.content, []]
    | .bullet => [List.replicate (2 * b.level) ' ' ++ ['-', ' '] ++ jsTrim b.content]
    | .quote => [['>', ' '] ++ jsTrim b.content, []]
    | .text => [jsTrim b.content, []]
    | .numbered => []

/-- The emitted lines of a block list. -/
def linesOfBlocks : List Block → List Str
  | [] => []
  | b :: bs => blockLines b ++ linesOfBlocks bs

theorem jsTrim_nil : jsTrim [] = [] := rfl

theorem joinLines_append : ∀ a b : List Str, joinLines (a ++ b) = joinLines a ++ joinLines b
  | [], b => rfl
  | l :: a', b => by
    show l ++ '\n' :: joinLines (a' ++ b) = (l ++ '\n' :: joinLines a') ++ joinLines b
    rw [joinLines_append a' b]
    simp

theorem blockChunk_eq (cnt : Nat → Nat) (b : Block) (h : ¬ b.type = .numbered) :
    blockChunk cnt b = (joinLines (blockLines b), fun _ => 0) := by
  by_cases h0 : jsTrim b.content = [] ∧ b.type = .text
  · simp [blockChunk, blockLines, h0, joinLines]
  · cases ht : b.type with
    | numbered => exact absurd ht h
    | text =>
      have hc : ¬ jsTrim b.content = [] := by
        intro hc0
        exact h0 ⟨hc0, ht⟩
      simp [blockChunk, blockLines, h0, ht, hc, joinLines]
    | heading1 => simp [blockChunk, blockLines, h0, ht, joinLines]
    | heading2 => simp [blockChunk, blockLines, h0, ht, joinLines]
    | heading3 => simp [blockChunk, blockLines, h0, ht, joinLines]
    | bullet => simp [blockChunk, blockLines, h0, ht, joinLines]
    | quote => simp [blockChunk, blockLines, h0, ht, joinLines]

theorem h2mGo_eq : ∀ (bs : List Block), (∀ b ∈ bs, ¬ b.type = .numbered) → ∀ cnt,
    h2mGo cnt bs = joinLines (linesOfBlocks bs)
  | [], _, cnt => rfl
  | b :: bs, h, cnt => by
    have hb : ¬ b.type = .numbered := h b (List.mem_cons_self b bs)
    have hbs : ∀ x ∈ bs, ¬ x.type = .numbered := fun x hx => h x (List.mem_cons_of_mem _ hx)
    show (blockChunk cnt b).1 ++ h2mGo (blockChunk cnt b).2 bs = _
    rw [blockChunk_eq cnt b hb]
    rw [show linesOfBlocks (b :: bs) = blockLines b ++ linesOfBlocks bs from rfl,
      joinLines_append, h2mGo_eq bs hbs (fun _ => 0)]

theorem splitLines_joinLines : ∀ ls : List Str, (∀ l ∈ ls, '\n' ∉ l) →
    splitLines (joinLines ls) = ls ++ [[]]
  | [], _ => rfl
  | l :: ls, h => by
    have hl : '\n' ∉ l := h l (List.mem_cons_self l ls)
    have hls : ∀ x ∈ ls, '\n' ∉ x := fun x hx => h x (List.mem_cons_of_mem _ hx)
    show splitLines (l ++ '\n' :: joinLines ls) = _
    rw [splitLines_append_nl _ _ hl, splitLines_joinLines ls hls]
    rfl

theorem nb_joinLines {α : Type} (g : Str → α) (ls : List Str) (h : ∀ l ∈ ls, '\n' ∉ l) :
    nbMap g (joinLines ls) = nbOf g ls := by
  rw [show nbMap g (joinLines ls) = nbOf g (splitLines (joinLines ls)) from rfl,
    splitLines_joinLines ls h, nbOf_append]
  simp [nbOf, isBlankLine_nil]

/-! ## Helpers for the per-line analysis -/

theorem exists_getLast? (c : Str) (h : c ≠ []) : ∃ d, c.getLast? = some d := by
  cases hr : c.reverse with
  | nil => exact absurd (by simpa using congrArg List.reverse hr) h
  | cons d r => exact ⟨d, by rw [← List.head?_reverse, hr]; rfl⟩

theorem unpack_isBulletLine (t : Str) (h : isBulletLine t = true) :
    ∃ c1 c2 rest, t = c1 :: c2 :: rest ∧ (c1 = '-' ∨ c1 = '*') ∧ c2.isWhitespace = true := by
  cases t with
  | nil => simp [isBulletLine] at h
  | cons c1 t1 =>
    cases t1 with
    | nil => simp [isBulletLine] at h
    | cons c2 rest =>
      simp only [isBulletLine, Bool.and_eq_true, decide_eq_true_eq] at h
      exact ⟨c1, c2, rest, rfl, by tauto, by tauto⟩

theorem classifyLine_congr (l₁ l₂ : Str) (h : jsTrim l₁ = jsTrim l₂) :
    classifyLine l₁ = classifyLine l₂ := by
  simp only [classifyLine, parseLine]
  rw [h]
  split_ifs <;> simp [createBlockElement]

theorem canonLine_no_nl (l : Str) (h : '\n' ∉ l) : '\n' ∉ canonLine l := by
  have hsub : ∀ n : Nat, '\n' ∈ jsTrim ((jsTrim l).drop n) → False := by
    intro n hm
    have h1 := mem_jsTrim _ _ hm
    have h2 := List.Sublist.mem h1 (List.drop_sublist n (jsTrim l))
    exact h (mem_jsTrim _ _ h2)
  have hsub2 : '\n' ∈ jsTrim (bulletRest (jsTrim l)) → False := by
    intro hm
    have h1 := mem_jsTrim _ _ hm
    unfold bulletRest at h1
    have h2 := mem_jsTrimStart _ _ h1
    have h3 := List.Sublist.mem h2 (List.drop_sublist 1 (jsTrim l))
    exact h (mem_jsTrim _ _ h3)
  simp only [canonLine]
  split_ifs <;> intro hm
  · rcases List.mem_append.mp hm with h1 | h1
    · simp at h1
    · exact hsub 4 h1
  · rcases List.mem_append.mp hm with h1 | h1
    · simp at h1
    · exact hsub 3 h1
  · rcases List.mem_append.mp hm with h1 | h1
    · simp at h1
    · exact hsub 2 h1
  · rcases List.mem_append.mp hm with h1 | h1
    · simp at h1
    · exact hsub2 h1
  · exact h (mem_jsTrim _ _ hm)

theorem blank_line_case (l : Str) (hb : isBlankLine l = true) :
    parseLine l = createBlockElement .text [] 0 ∧ blockLines (parseLine l) = [[]] := by
  have h0 : jsTrim l = [] := by simpa [isBlankLine, List.isEmpty_iff] using hb
  have hp : parseLine l = createBlockElement .text [] 0 := by
    simp only [parseLine]
    rw [if_pos h0]
  refine ⟨hp, ?_⟩
  rw [hp]
  simp [blockLines, createBlockElement, jsTrim_nil]

theorem drop_trim_ne (l : Str) (n : Nat) (hne : (jsTrim l).drop n ≠ []) :
    jsTrim ((jsTrim l).drop n) ≠ [] := by
  obtain ⟨d, hd⟩ := exists_getLast? _ hne
  have hdt : (jsTrim l).getLast? = some d := by
    rw [← drop_getLast? (jsTrim l) n hne]
    exact hd
  have hdw : d.isWhitespace = false := jsTrim_getLast?_not_ws l d hdt
  intro h0
  rw [jsTrim_eq_nil_iff, List.all_eq_true] at h0
  have h1 := h0 d (getLast?_mem _ d hd)
  rw [hdw] at h1
  cases h1

theorem drop_ne_of_pattern (l : Str) (p : Str) (n : Nat)
    (hdecomp : jsTrim l = p ++ (jsTrim l).drop n) (hlast : p.getLast? = some ' ') :
    (jsTrim l).drop n ≠ [] := by
  intro h0
  rw [h0, List.append_nil] at hdecomp
  have h1 : (jsTrim l).getLast? = some ' ' := by rw [hdecomp]; exact hlast
  have h2 := jsTrim_getLast?_not_ws l ' ' h1
  exact absurd h2 (by decide)

/-- The heading3 branch of the per-line round trip. -/
theorem heading3_branch (l : Str) (hnb : ¬ jsTrim l = [])
    (h3 : (jsTrim l).take 4 = ['#', '#', '#', ' ']) :
    ¬ (parseLine l).type = .numbered ∧
    (blockLines (parseLine l) = [canonLine l, []] ∨ blockLines (parseLine l) = [canonLine l]) ∧
    isBlankLine (canonLine l) = false ∧
    classifyLine (canonLine l) = classifyLine l := by
  have hdecomp : jsTrim l = ['#', '#', '#', ' '] ++ (jsTrim l).drop 4 := by
    conv_lhs => rw [← List.take_append_drop 4 (jsTrim l)]
    rw [h3]
  have hcne : (jsTrim l).drop 4 ≠ [] := drop_ne_of_pattern l _ 4 hdecomp rfl
  have hc'ne : jsTrim ((jsTrim l).drop 4) ≠ [] := drop_trim_ne l 4 hcne
  have hparse : parseLine l = createBlockElement .heading3 ((jsTrim l).drop 4) 0 := by
    simp only [parseLine]
    rw [if_neg hnb, if_pos h3]
  have hcanon : canonLine l = ['#', '#', '#', ' '] ++ jsTrim ((jsTrim l).drop 4) := by
    simp only [canonLine]
    rw [if_pos h3]
  have hcanontrim : jsTrim (['#', '#', '#', ' '] ++ jsTrim ((jsTrim l).drop 4)) =
      ['#', '#', '#', ' '] ++ jsTrim ((jsTrim l).drop 4) := by
    apply jsTrim_eq_self
    · intro ch hch
      simp only [List.cons_append, List.head?_cons, Option.some.injEq] at hch
      subst hch
      decide
    · intro d hd
      rw [getLast?_append_of_ne _ _ hc'ne] at hd
      exact jsTrim_getLast?_not_ws _ d hd
  refine ⟨?_, ?_, ?_, ?_⟩
  · rw [hparse]; simp [createBlockElement]
  · left
    rw [hparse, hcanon]
    simp [blockLines, createBlockElement]
  · rw [hcanon, isBlankLine, hcanontrim]
    simp
  · rw [hcanon]
    have hre : classifyLine (['#', '#', '#', ' '] ++ jsTrim ((jsTrim l).drop 4)) =
        (BlockType.heading3, jsTrim ((jsTrim l).drop 4)) := by
      simp only [classifyLine, parseLine]
      rw [hcanontrim]
      rw [if_neg (show ¬ (['#', '#', '#', ' '] ++ jsTrim ((jsTrim l).drop 4) : Str) = [] by simp)]
      rw [if_pos (show ((['#', '#', '#', ' '] ++ jsTrim ((jsTrim l).drop 4) : Str)).take 4 =
        ['#', '#', '#', ' '] by simp [List.take_append_eq_append_take])]
      simp [createBlockElement, jsTrim_idem]
    rw [hre]
    simp only [classifyLine]
    rw [hparse]
    simp [createBlockElement]

/-- The heading2 branch of the per-line round trip. -/
theorem heading2_branch (l : Str) (hnb : ¬ jsTrim l = [])
    (h3n : ¬ (jsTrim l).take 4 = ['#', '#', '#', ' '])
    (h2 : (jsTrim l).take 3 = ['#', '#', ' ']) :
    ¬ (parseLine l).type = .numbered ∧
    (blockLines (parseLine l) = [canonLine l, []] ∨ blockLines (parseLine l) = [canonLine l]) ∧
    isBlankLine (canonLine l) = false ∧
    classifyLine (canonLine l) = classifyLine l := by
  have hdecomp : jsTrim l = ['#', '#', ' '] ++ (jsTrim l).drop 3 := by
    conv_lhs => rw [← List.take_append_drop 3 (jsTrim l)]
    rw [h2]
  have hcne : (jsTrim l).drop 3 ≠ [] := drop_ne_of_pattern l _ 3 hdecomp rfl
  have hc'ne : jsTrim ((jsTrim l).drop 3) ≠ [] := drop_trim_ne l 3 hcne
  have hparse : parseLine l = createBlockElement .heading2 ((jsTrim l).drop 3) 0 := by
    simp only [parseLine]
    rw [if_neg hnb, if_neg h3n, if_pos h2]
  have hcanon : canonLine l = ['#', '#', ' '] ++ jsTrim ((jsTrim l).drop 3) := by
    simp only [canonLine]
    rw [if_neg h3n, if_pos h2]
  have hcanontrim : jsTrim (['#', '#', ' '] ++ jsTrim ((jsTrim l).drop 3)) =
      ['#', '#', ' '] ++ jsTrim ((jsTrim l).drop 3) := by
    apply jsTrim_eq_self
    · intro ch hch
      simp only [List.cons_append, List.head?_cons, Option.some.injEq] at hch
      subst hch
      decide
    · intro d hd
      rw [getLast?_append_of_ne _ _ hc'ne] at hd
      exact jsTrim_getLast?_not_ws _ d hd
  refine ⟨?_, ?_, ?_, ?_⟩
  · rw [hparse]; simp [createBlockElement]
  · left
    rw [hparse, hcanon]
    simp [blockLines, createBlockElement]
  · rw [hcanon, isBlankLine, hcanontrim]
    simp
  · rw [hcanon]
    have hre : classifyLine (['#', '#', ' '] ++ jsTrim ((jsTrim l).drop 3)) =
        (BlockType.heading2, jsTrim ((jsTrim l).drop 3)) := by
      simp only [classifyLine, parseLine]
      rw [hcanontrim]
      rw [if_neg (show ¬ (['#', '#', ' '] ++ jsTrim ((jsTrim l).drop 3) : Str) = [] by simp)]
      rw [if_neg (show ¬ ((['#', '#', ' '] ++ jsTrim ((jsTrim l).drop 3) : Str)).take 4 =
        ['#', '#', '#', ' '] by simp [List.take_append_eq_append_take])]
      rw [if_pos (show ((['#', '#', ' '] ++ jsTrim ((jsTrim l).drop 3) : Str)).take 3 =
        ['#', '#', ' '] by simp [List.take_append_eq_append_take])]
      simp [createBlockElement, jsTrim_idem]
    rw [hre]
    simp only [classifyLine]
    rw [hparse]
    simp [createBlockElement]

/-- The heading1 branch of the per-line round trip. -/
theorem heading1_branch (l : Str) (hnb : ¬ jsTrim l = [])
    (h3n : ¬ (jsTrim l).take 4 = ['#', '#', '#', ' '])
    (h2n : ¬ (jsTrim l).take 3 = ['#', '#', ' '])
    (h1 : (jsTrim l).take 2 = ['#', ' ']) :
    ¬ (parseLine l).type = .numbered ∧
    (blockLines (parseLine l) = [canonLine l, []] ∨ blockLines (parseLine l) = [canonLine l]) ∧
    isBlankLine (canonLine l) = false ∧
    classifyLine (canonLine l) = classifyLine l := by
  have hdecomp : jsTrim l = ['#', ' '] ++ (jsTrim l).drop 2 := by
    conv_lhs => rw [← List.take_append_drop 2 (jsTrim l)]
    rw [h1]
  have hcne : (jsTrim l).drop 2 ≠ [] := drop_ne_of_pattern l _ 2 hdecomp rfl
  have hc'ne : jsTrim ((jsTrim l).drop 2) ≠ [] := drop_trim_ne l 2 hcne
  have hparse : parseLine l = createBlockElement .heading1 ((jsTrim l).drop 2) 0 := by
    simp only [parseLine]
    rw [if_neg hnb, if_neg h3n, if_neg h2n, if_pos h1]
  have hcanon : canonLine l = ['#', ' '] ++ jsTrim ((jsTrim l).drop 2) := by
    simp only [canonLine]
    rw [if_neg h3n, if_neg h2n, if_pos h1]
  have hcanontrim : jsTrim (['#', ' '] ++ jsTrim ((jsTrim l).drop 2)) =
      ['#', ' '] ++ jsTrim ((jsTrim l).drop 2) := by
    apply jsTrim_eq_self
    · intro ch hch
      simp only [List.cons_append, List.head?_cons, Option.some.injEq] at hch
      subst hch
      decide
    · intro d hd
      rw [getLast?_append_of_ne _ _ hc'ne] at hd
      exact jsTrim_getLast?_not_ws _ d hd
  refine ⟨?_, ?_, ?_, ?_⟩
  · rw [hparse]; simp [createBlockElement]
  · left
    rw [hparse, hcanon]
    simp [blockLines, createBlockElement]
  · rw [hcanon, isBlankLine, hcanontrim]
    simp
  · rw [hcanon]
    have hre : classifyLine (['#', ' '] ++ jsTrim ((jsTrim l).drop 2)) =
        (BlockType.heading1, jsTrim ((jsTrim l).drop 2)) := by
      simp only [classifyLine, parseLine]
      rw [hcanontrim]
      rw [if_neg (show ¬ (['#', ' '] ++ jsTrim ((jsTrim l).drop 2) : Str) = [] by simp)]
      rw [if_neg (show ¬ ((['#', ' '] ++ jsTrim ((jsTrim l).drop 2) : Str)).take 4 =
        ['#', '#', '#', ' '] by simp [List.take_append_eq_append_take])]
      rw [if_neg (show ¬ ((['#', ' '] ++ jsTrim ((jsTrim l).drop 2) : Str)).take 3 =
        ['#', '#', ' '] by simp [List.take_append_eq_append_take])]
      rw [if_pos (show ((['#', ' '] ++ jsTrim ((jsTrim l).drop 2) : Str)).take 2 =
        ['#', ' '] by simp [List.take_append_eq_append_take])]
      simp [createBlockElement, jsTrim_idem]
    rw [hre]
    simp only [classifyLine]
    rw [hparse]
    simp [createBlockElement]

/-- The bullet branch of the per-line round trip (flat bullets only). -/
theorem bullet_branch (l : Str) (hnb : ¬ jsTrim l = [])
    (h3n : ¬ (jsTrim l).take 4 = ['#', '#', '#', ' '])
    (h2n : ¬ (jsTrim l).take 3 = ['#', '#', ' '])
    (h1n : ¬ (jsTrim l).take 2 = ['#', ' '])
    (hqn : ¬ (jsTrim l).take 2 = ['>', ' '])
    (hbul : isBulletLine (jsTrim l) = true)
    (hflat : leadingSpaces l < 2) :
    ¬ (parseLine l).type = .numbered ∧
    (blockLines (parseLine l) = [canonLine l, []] ∨ blockLines (parseLine l) = [canonLine l]) ∧
    isBlankLine (canonLine l) = false ∧
    classifyLine (canonLine l) = classifyLine l := by
  obtain ⟨c1, c2, rest, hteq, hc1, hc2⟩ := unpack_isBulletLine _ hbul
  have hdrop1 : (jsTrim l).drop 1 = c2 :: rest := by rw [hteq]; simp
  obtain ⟨d, hd⟩ := exists_getLast? (jsTrim l) (by rw [hteq]; simp)
  have hdw : d.isWhitespace = false := jsTrim_getLast?_not_ws l d hd
  have hdlast : (c2 :: rest).getLast? = some d := by
    have h5 : jsTrim l = [c1] ++ (c2 :: rest) := by rw [hteq]; rfl
    rw [h5, getLast?_append_of_ne _ _ (by simp)] at hd
    exact hd
  have hrall : ¬ (c2 :: rest).all (fun c => c.isWhitespace) = true := by
    intro hall
    rw [List.all_eq_true] at hall
    have h6 := hall d (getLast?_mem _ d hdlast)
    rw [hdw] at h6
    cases h6
  have hcne : bulletRest (jsTrim l) ≠ [] := by
    unfold bulletRest
    rw [hdrop1, Ne, jsTrimStart_eq_nil_iff]
    exact hrall
  have hhead : ∀ ch, (bulletRest (jsTrim l)).head? = some ch → ch.isWhitespace = false := by
    intro ch hch
    cases hbr : bulletRest (jsTrim l) with
    | nil => exact absurd hbr hcne
    | cons e cc =>
      rw [hbr] at hch
      simp only [List.head?_cons, Option.some.injEq] at hch
      subst hch
      unfold bulletRest jsTrimStart at hbr
      exact dropWhile_head_not hbr
  have hlast : ∀ d', (bulletRest (jsTrim l)).getLast? = some d' → d'.isWhitespace = false := by
    intro d' hd'
    have h7 : (bulletRest (jsTrim l)).getLast? = (c2 :: rest).getLast? := by
      unfold bulletRest
      rw [hdrop1]
      exact jsTrimStart_getLast? _ (by
        rw [Ne, jsTrimStart_eq_nil_iff]
        exact hrall)
    rw [h7, hdlast] at hd'
    simp only [Option.some.injEq] at hd'
    subst hd'
    exact hdw
  have htrimc : jsTrim (bulletRest (jsTrim l)) = bulletRest (jsTrim l) :=
    jsTrim_eq_self _ hhead hlast
  have hc'ne : jsTrim (bulletRest (jsTrim l)) ≠ [] := by
    rw [htrimc]; exact hcne
  have hparse : parseLine l =
      createBlockElement .bullet (bulletRest (jsTrim l)) (leadingSpaces l / 2) := by
    simp only [parseLine]
    rw [if_neg hnb, if_neg h3n, if_neg h2n, if_neg h1n, if_neg hqn, if_pos hbul]
  have hlvl : leadingSpaces l / 2 = 0 := Nat.div_eq_of_lt hflat
  have hcanon : canonLine l = ['-', ' '] ++ jsTrim (bulletRest (jsTrim l)) := by
    simp only [canonLine]
    rw [if_neg h3n, if_neg h2n, if_neg h1n, if_pos hbul]
  have hcanontrim : jsTrim (['-', ' '] ++ jsTrim (bulletRest (jsTrim l))) =
      ['-', ' '] ++ jsTrim (bulletRest (jsTrim l)) := by
    apply jsTrim_eq_self
    · intro ch hch
      simp only [List.cons_append, List.head?_cons, Option.some.injEq] at hch
      subst hch
      decide
    · intro d' hd'
      rw [getLast?_append_of_ne _ _ hc'ne] at hd'
      exact jsTrim_getLast?_not_ws _ d' hd'
  refine ⟨?_, ?_, ?_, ?_⟩
  · rw [hparse]; simp [createBlockElement]
  · right
    rw [hparse, hcanon]
    simp [blockLines, createBlockElement, hlvl]
  · rw [hcanon, isBlankLine, hcanontrim]
    simp
  · rw [hcanon]
    have hjt : jsTrimStart (jsTrim (bulletRest (jsTrim l))) = jsTrim (bulletRest (jsTrim l)) := by
      rw [htrimc]
      exact jsTrimStart_eq_self _ hhead
    have hre : classifyLine (['-', ' '] ++ jsTrim (bulletRest (jsTrim l))) =
        (BlockType.bullet, jsTrim (bulletRest (jsTrim l))) := by
      simp only [classifyLine, parseLine]
      rw [hcanontrim]
      rw [if_neg (show ¬ (['-', ' '] ++ jsTrim (bulletRest (jsTrim l)) : Str) = [] by simp)]
      rw [if_neg (show ¬ ((['-', ' '] ++ jsTrim (bulletRest (jsTrim l)) : Str)).take 4 =
        ['#', '#', '#', ' '] by simp [List.take_append_eq_append_take])]
      rw [if_neg (show ¬ ((['-', ' '] ++ jsTrim (bulletRest (jsTrim l)) : Str)).take 3 =
        ['#', '#', ' '] by simp [List.take_append_eq_append_take])]
      rw [if_neg (show ¬ ((['-', ' '] ++ jsTrim (bulletRest (jsTrim l)) : Str)).take 2 =
        ['#', ' '] by simp [List.take_append_eq_append_take])]
      rw [if_neg (show ¬ ((['-', ' '] ++ jsTrim (bulletRest (jsTrim l)) : Str)).take 2 =
        ['>', ' '] by simp [List.take_append_eq_append_take])]
      rw [if_pos (show isBulletLine (['-', ' '] ++ jsTrim (bulletRest (jsTrim l)) : Str) = true by
        simp [isBulletLine])]
      have hbr2 : bulletRest (['-', ' '] ++ jsTrim (bulletRest (jsTrim l)) : Str) =
          jsTrim (bulletRest (jsTrim l)) := by
        show jsTrimStart ((['-', ' '] ++ jsTrim (bulletRest (jsTrim l)) : Str).drop 1) = _
        rw [show (['-', ' '] ++ jsTrim (bulletRest (jsTrim l)) : Str).drop 1 =
          ' ' :: jsTrim (bulletRest (jsTrim l)) from rfl]
        rw [jsTrimStart_cons_ws ' ' _ (by decide), hjt]
      rw [hbr2]
      simp [createBlockElement, jsTrim_idem]
    rw [hre]
    simp only [classifyLine]
    rw [hparse]
    simp [createBlockElement]

/-- The plain-paragraph branch of the per-line round trip. -/
theorem text_branch (l : Str) (hnb : ¬ jsTrim l = [])
    (h3n : ¬ (jsTrim l).take 4 = ['#', '#', '#', ' '])
    (h2n : ¬ (jsTrim l).take 3 = ['#', '#', ' '])
    (h1n : ¬ (jsTrim l).take 2 = ['#', ' '])
    (hqn : ¬ (jsTrim l).take 2 = ['>', ' '])
    (hbn : ¬ isBulletLine (jsTrim l) = true)
    (hnn : ¬ isNumberedLine (jsTrim l) = true) :
    ¬ (parseLine l).type = .numbered ∧
    (blockLines (parseLine l) = [canonLine l, []] ∨ blockLines (parseLine l) = [canonLine l]) ∧
    isBlankLine (canonLine l) = false ∧
    classifyLine (canonLine l) = classifyLine l := by
  have hparse : parseLine l = createBlockElement .text (jsTrim l) 0 := by
    simp only [parseLine]
    rw [if_neg hnb, if_neg h3n, if_neg h2n, if_neg h1n, if_neg hqn, if_neg hbn, if_neg hnn]
  have hcanon : canonLine l = jsTrim l := by
    simp only [canonLine]
    rw [if_neg h3n, if_neg h2n, if_neg h1n, if_neg hbn]
  refine ⟨?_, ?_, ?_, ?_⟩
  · rw [hparse]; simp [createBlockElement]
  · left
    rw [hparse, hcanon]
    simp [blockLines, createBlockElement, jsTrim_idem, hnb]
  · rw [hcanon, isBlankLine, jsTrim_idem]
    simpa [List.isEmpty_iff] using hnb
  · rw [hcanon]
    exact classifyLine_congr _ _ (jsTrim_idem l)

/-- Per-line round trip for every good non-blank line. -/
theorem good_nonblank_line (l : Str) (hg : goodLine l = true) (hb : isBlankLine l = false) :
    ¬ (parseLine l).type = .numbered ∧
    (blockLines (parseLine l) = [canonLine l, []] ∨ blockLines (parseLine l) = [canonLine l]) ∧
    isBlankLine (canonLine l) = false ∧
    classifyLine (canonLine l) = classifyLine l := by
  have hnb : ¬ jsTrim l = [] := by
    intro h0
    rw [isBlankLine, h0] at hb
    cases hb
  by_cases h3 : (jsTrim l).take 4 = ['#', '#', '#', ' ']
  · exact heading3_branch l hnb h3
  by_cases h2 : (jsTrim l).take 3 = ['#', '#', ' ']
  · exact heading2_branch l hnb h3 h2
  by_cases h1 : (jsTrim l).take 2 = ['#', ' ']
  · exact heading1_branch l hnb h3 h2 h1
  have hgood := hg
  simp only [goodLine, Bool.or_eq_true, Bool.and_eq_true, Bool.not_eq_true',
    decide_eq_true_eq, decide_eq_false_iff_not, List.isEmpty_iff] at hgood
  rcases hgood with ((h0 | ((hx | hx) | hx)) | ⟨hbul, hflat⟩) | ⟨⟨hq, hbn⟩, hnn⟩
  · exact absurd h0 hnb
  · exact absurd hx h3
  · exact absurd hx h2
  · exact absurd hx h1
  · have hqn : ¬ (jsTrim l).take 2 = ['>', ' '] := by
      intro hq2
      obtain ⟨c1, c2, rest, hteq, hc1, _⟩ := unpack_isBulletLine _ hbul
      rw [hteq] at hq2
      have hx1 : c1 = '>' := by
        have h9 := congrArg (fun x : Str => x.head?) hq2
        simpa using h9
      rcases hc1 with h | h
      · rw [hx1] at h; exact absurd h (by decide)
      · rw [hx1] at h; exact absurd h (by decide)
    exact bullet_branch l hnb h3 h2 h1 hqn hbul hflat
  · have hbn' : ¬ isBulletLine (jsTrim l) = true := by simp [hbn]
    have hnn' : ¬ isNumberedLine (jsTrim l) = true := by simp [hnn]
    exact text_branch l hnb h3 h2 h1 hq hbn' hnn'

theorem lineOut_filter (l : Str) (hg : goodLine l = true) :
    (blockLines (parseLine l)).filter (fun x => !isBlankLine x) =
      if isBlankLine l = true then [] else [canonLine l] := by
  by_cases hb : isBlankLine l = true
  · obtain ⟨-, hbl⟩ := blank_line_case l hb
    rw [hbl, if_pos hb]
    simp [List.filter_cons, isBlankLine_nil]
  · have hb' : isBlankLine l = false := by simpa using hb
    obtain ⟨-, hbl, hcnb, -⟩ := good_nonblank_line l hg hb'
    rw [if_neg hb]
    rcases hbl with h | h <;> rw [h] <;> simp [List.filter_cons, hcnb, isBlankLine_nil]

theorem parseLine_not_numbered (l : Str) (hg : goodLine l = true) :
    ¬ (parseLine l).type = .numbered := by
  by_cases hb : isBlankLine l = true
  · rw [(blank_line_case l hb).1]
    simp [createBlockElement]
  · exact (good_nonblank_line l hg (by simpa using hb)).1

theorem blockLines_no_nl (l : Str) (hg : goodLine l = true) (hl : '\n' ∉ l) :
    ∀ x ∈ blockLines (parseLine l), '\n' ∉ x := by
  by_cases hb : isBlankLine l = true
  · rw [(blank_line_case l hb).2]
    intro x hx
    simp only [List.mem_singleton] at hx
    subst hx
    simp
  · obtain ⟨-, hbl, -, -⟩ := good_nonblank_line l hg (by simpa using hb)
    have hc := canonLine_no_nl l hl
    rcases hbl with h | h <;> rw [h] <;> intro x hx
    · rcases List.mem_cons.mp hx with h1 | h1
      · subst h1; exact hc
      · simp only [List.mem_singleton] at h1
        subst h1
        simp
    · simp only [List.mem_singleton] at hx
      subst hx
      exact hc

theorem mem_linesOfBlocks : ∀ (bs : List Block) (x : Str), x ∈ linesOfBlocks bs →
    ∃ b ∈ bs, x ∈ blockLines b
  | [], x, h => by simp [linesOfBlocks] at h
  | b :: bs, x, h => by
    rw [show linesOfBlocks (b :: bs) = blockLines b ++ linesOfBlocks bs from rfl] at h
    rcases List.mem_append.mp h with h1 | h1
    · exact ⟨b, List.mem_cons_self b bs, h1⟩
    · obtain ⟨b', hb', hx⟩ := mem_linesOfBlocks bs x h1
      exact ⟨b', List.mem_cons_of_mem _ hb', hx⟩

theorem nbOf_lines : ∀ ls : List Str, (∀ l ∈ ls, goodLine l = true) →
    nbOf classifyLine (linesOfBlocks (ls.map parseLine)) = nbOf classifyLine ls
  | [], _ => rfl
  | l :: ls, h => by
    have hl : goodLine l = true := h l (List.mem_cons_self l ls)
    have hls : ∀ x ∈ ls, goodLine x = true := fun x hx => h x (List.mem_cons_of_mem _ hx)
    rw [List.map_cons,
      show linesOfBlocks (parseLine l :: ls.map parseLine) =
        blockLines (parseLine l) ++ linesOfBlocks (ls.map parseLine) from rfl,
      nbOf_append, nbOf_lines ls hls, nbOf_cons]
    have h1 : nbOf classifyLine (blockLines (parseLine l)) =
        if isBlankLine l = true then [] else [classifyLine (canonLine l)] := by
      unfold nbOf
      rw [lineOut_filter l hl]
      by_cases hb : isBlankLine l = true
      · simp [hb]
      · simp [hb]
    rw [h1]
    by_cases hb : isBlankLine l = true
    · simp [hb]
    · have hcc := (good_nonblank_line l hl (by simpa using hb)).2.2.2
      simp [hb, hcc]

/-! ## Lemmas about the numbering pass -/

theorem updateNumberedGo_map_core (cs : List Nat) (bs : List Block) :
    (updateNumberedGo cs bs).map Block.core = bs.map Block.core := by
  induction bs generalizing cs with
  | nil => rfl
  | cons b bs ih =>
    by_cases hb : b.type = .numbered
    · by_cases hm : b.marker.isSome <;>
        simp [updateNumberedGo, hb, hm, ih, Block.core]
    · simp [updateNumberedGo, hb, ih]

theorem updateNumberedGo_length (cs : List Nat) (bs : List Block) :
    (updateNumberedGo cs bs).length = bs.length := by
  have h := congrArg List.length (updateNumberedGo_map_core cs bs)
  simpa using h

theorem updateNumberedGo_getElem?_core (cs : List Nat) (bs : List Block) (j : Nat) :
    ((updateNumberedGo cs bs)[j]?).map Block.core = (bs[j]?).map Block.core := by
  have h := congrArg (fun l => l[j]?) (updateNumberedGo_map_core cs bs)
  simpa [List.getElem?_map] using h

theorem updateNumberedGo_not_numbered (cs : List Nat) (bs : List Block) (j : Nat)
    (b : Block) (hj : bs[j]? = some b) (hb : ¬ b.type = .numbered) :
    (updateNumberedGo cs bs)[j]? = some b := by
  induction bs generalizing cs j with
  | nil => simp at hj
  | cons x xs ih =>
    cases j with
    | zero =>
      simp only [List.getElem?_cons_zero, Option.some.injEq] at hj
      subst hj
      simp [updateNumberedGo, hb]
    | succ j =>
      simp only [List.getElem?_cons_succ] at hj
      by_cases hx : x.type = .numbered
      · by_cases hm : x.marker.isSome <;>
          simpa [updateNumberedGo, hx, hm] using ih _ _ hj
      · simpa [updateNumberedGo, hx] using ih _ _ hj

theorem updateNumberedBlocks_length (bs : List Block) :
    (updateNumberedBlocks bs).length = bs.length :=
  updateNumberedGo_length [] bs

theorem updateNumberedBlocks_getElem?_core (bs : List Block) (j : Nat) :
    ((updateNumberedBlocks bs)[j]?).map Block.core = (bs[j]?).map Block.core :=
  updateNumberedGo_getElem?_core [] bs j

theorem updateNumberedGo_idem (bs : List Block) (cs : List Nat) :
    updateNumberedGo cs (updateNumberedGo cs bs) = updateNumberedGo cs bs := by
  induction bs generalizing cs with
  | nil => rfl
  | cons b bs ih =>
    by_cases hb : b.type = .numbered
    · by_cases hm : b.marker.isSome
      · simp [updateNumberedGo, hb, hm, ih]
      · simp [updateNumberedGo, hb, hm, ih]
    · simp [updateNumberedGo, hb, ih]

/-! ## C4: the numbering pass -/

/-- The four-block example of the claim: numbered level 0, numbered level 1,
text, numbered level 0. -/
def c4Example : List Block :=
  [createBlockElement .numbered ['a'] 0,
   createBlockElement .numbered ['b'] 1,
   createBlockElement .text ['c'] 0,
   createBlockElement .numbered ['d'] 0]

/-- C4.  The numbering pass is a pure function of the ordered block list: the
example sequence [numbered L0, numbered L1, text, numbered L0] receives the
labels "1.", "1.1.", no label, "1." (the text block resets the counters), the
pass never changes a block's type, level or content, and re-running it
produces the identical result (idempotence, hence identical labels). -/
theorem c4_numbering_pass :
    (updateNumberedBlocks c4Example).map Block.marker =
      [some ['1', '.'], some ['1', '.', '1', '.'], none, some ['1', '.']] ∧
    (∀ bs : List Block, (updateNumberedBlocks bs).map Block.core = bs.map Block.core) ∧
    (∀ bs : List Block, updateNumberedBlocks (updateNumberedBlocks bs) = updateNumberedBlocks bs) := by
  refine ⟨by decide, fun bs => updateNumberedGo_map_core [] bs, fun bs => updateNumberedGo_idem bs []⟩

/-! ## C9: indent and outdent -/

/-- C9.  Tab increments a block's level by exactly 1; Shift+Tab decrements it
by exactly 1 floored at 0; outdent at level 0 leaves the block unchanged; and
a level-0 block indented twice then outdented three times ends at level 0. -/
theorem c9_indent_outdent :
    ∀ b : Block,
      (indentBlock b).level = b.level + 1 ∧
      (outdentBlock b).level = b.level - 1 ∧
      (b.level = 0 → outdentBlock b = b) ∧
      (b.level = 0 →
        (outdentBlock (outdentBlock (outdentBlock (indentBlock (indentBlock b))))).level = 0) := by
  intro b
  refine ⟨rfl, ?_, ?_, ?_⟩
  · by_cases h : b.level > 0
    · simp [outdentBlock, h]
    · simp [outdentBlock, h]; omega
  · intro h; simp [outdentBlock, h]
  · intro h
    simp [indentBlock, outdentBlock, h]

/-- Witness for C9 at a concrete block. -/
theorem c9_indent_outdent_witness :
    outdentBlock (createBlockElement .bullet ['x'] 0) = createBlockElement .bullet ['x'] 0 ∧
    (outdentBlock (outdentBlock (outdentBlock (indentBlock (indentBlock
      (createBlockElement .bullet ['x'] 0)))))).level = 0 :=
  ⟨(c9_indent_outdent (createBlockElement .bullet ['x'] 0)).2.2.1 (by decide),
   (c9_indent_outdent (createBlockElement .bullet ['x'] 0)).2.2.2 (by decide)⟩

/-! ## C6: toggle semantics of type-conversion commands -/

/-- C6.  Invoking a conversion command whose target equals the block's current
type converts the block to text and leaves it marker-free (toggle semantics),
preserving content and never leaving the block unchanged; and converting a
text block to bullet and toggling back restores the original block exactly
(no marker residue). -/
theorem c6_toggle_semantics :
    ∀ b : Block,
      (b.type = .bullet →
        (toggleBulletBlock b).type = .text ∧ (toggleBulletBlock b).marker = none ∧
        (toggleBulletBlock b).content = b.content ∧ toggleBulletBlock b ≠ b) ∧
      (b.type = .numbered →
        (toggleNumberedBlock b).type = .text ∧ (toggleNumberedBlock b).marker = none ∧
        (toggleNumberedBlock b).content = b.content ∧ toggleNumberedBlock b ≠ b) ∧
      (b.type = .quote → b.marker = none →
        (applyBlockQuoteBlock b).type = .text ∧ (applyBlockQuoteBlock b).marker = none ∧
        (applyBlockQuoteBlock b).content = b.content ∧ applyBlockQuoteBlock b ≠ b) ∧
      (b.type = .text → b.marker = none →
        (toggleBulletBlock b).type = .bullet ∧
        toggleBulletBlock (toggleBulletBlock b) = b) := by
  intro b
  refine ⟨?_, ?_, ?_, ?_⟩
  · intro h
    have ht : (toggleBulletBlock b).type = .text := by simp [toggleBulletBlock, h]
    refine ⟨ht, by simp [toggleBulletBlock, h], by simp [toggleBulletBlock, h], ?_⟩
    intro hc
    rw [hc, h] at ht
    exact absurd ht (by decide)
  · intro h
    have ht : (toggleNumberedBlock b).type = .text := by simp [toggleNumberedBlock, h]
    refine ⟨ht, by simp [toggleNumberedBlock, h], by simp [toggleNumberedBlock, h], ?_⟩
    intro hc
    rw [hc, h] at ht
    exact absurd ht (by decide)
  · intro h hm
    have ht : (applyBlockQuoteBlock b).type = .text := by simp [applyBlockQuoteBlock, h]
    refine ⟨ht, by simp [applyBlockQuoteBlock, h, hm], by simp [applyBlockQuoteBlock, h], ?_⟩
    intro hc
    rw [hc, h] at ht
    exact absurd ht (by decide)
  · intro h hm
    have h1 : toggleBulletBlock b = { b with type := .bullet, marker := some bulletGlyph } := by
      simp [toggleBulletBlock, h]
    refine ⟨by simp [h1], ?_⟩
    rw [h1]
    cases b with
    | mk t l c m =>
      simp only at h hm
      subst h
      subst hm
      simp [toggleBulletBlock]

/-- Witness for C6 at concrete blocks. -/
theorem c6_toggle_semantics_witness :
    (toggleBulletBlock ⟨.bullet, 0, ['h', 'i'], some bulletGlyph⟩).type = .text ∧
    toggleBulletBlock (toggleBulletBlock ⟨.text, 0, ['h', 'i'], none⟩) = ⟨.text, 0, ['h', 'i'], none⟩ :=
  ⟨((c6_toggle_semantics ⟨.bullet, 0, ['h', 'i'], some bulletGlyph⟩).1 rfl).1,
   ((c6_toggle_semantics ⟨.text, 0, ['h', 'i'], none⟩).2.2.2 rfl rfl).2⟩

/-! ## C7: marker removal and level reset on conversion -/

/-- Counterexample to C7 as stated: toggling the "Bullet List" command on a
bullet block at level 1 converts it to a text block (a conversion whose target
type is text) but leaves the level at 1 instead of resetting it to 0.  The
same holds for the numbered toggle-off path. -/
theorem c7_level_reset_counterexample :
    (toggleBulletBlock ⟨.bullet, 1, ['x'], some bulletGlyph⟩).type = .text ∧
    (toggleBulletBlock ⟨.bullet, 1, ['x'], some bulletGlyph⟩).level ≠ 0 ∧
    (toggleNumberedBlock ⟨.numbered, 1, ['x'], some numberedPlaceholder⟩).type = .text ∧
    (toggleNumberedBlock ⟨.numbered, 1, ['x'], some numberedPlaceholder⟩).level ≠ 0 := by
  decide

/-- C7 amended.  Conversions to a heading target remove any existing marker
and reset the level to 0; conversions through the quote command reset the
level to 0 in both directions (removing any marker when converting to quote);
but the bullet and numbered toggle-off paths to text remove the marker while
leaving the block's level unchanged. -/
theorem c7_level_reset_amended :
    ∀ (b : Block) (n : Nat),
      (applyHeadingBlock n b).marker = none ∧ (applyHeadingBlock n b).level = 0 ∧
      (applyBlockQuoteBlock b).level = 0 ∧
      (¬ b.type = .quote → (applyBlockQuoteBlock b).marker = none) ∧
      (b.type = .bullet →
        (toggleBulletBlock b).type = .text ∧ (toggleBulletBlock b).marker = none ∧
        (toggleBulletBlock b).level = b.level) ∧
      (b.type = .numbered →
        (toggleNumberedBlock b).type = .text ∧ (toggleNumberedBlock b).marker = none ∧
        (toggleNumberedBlock b).level = b.level) := by
  intro b n
  refine ⟨rfl, rfl, ?_, ?_, ?_, ?_⟩
  · by_cases h : b.type = .quote <;> simp [applyBlockQuoteBlock, h]
  · intro h; simp [applyBlockQuoteBlock, h]
  · intro h; simp [toggleBulletBlock, h]
  · intro h; simp [toggleNumberedBlock, h]

/-- Witness for C7 (amended) at a concrete block. -/
theorem c7_level_reset_amended_witness :
    (applyBlockQuoteBlock ⟨.bullet, 2, ['y'], some bulletGlyph⟩).marker = none ∧
    (toggleBulletBlock ⟨.bullet, 2, ['y'], some bulletGlyph⟩).level = 2 :=
  ⟨(c7_level_reset_amended ⟨.bullet, 2, ['y'], some bulletGlyph⟩ 1).2.2.2.1 (by decide),
   ((c7_level_reset_amended ⟨.bullet, 2, ['y'], some bulletGlyph⟩ 1).2.2.2.2.1 rfl).2.2⟩

/-! ## C5: autoformat exactness -/

theorem char_isDigit_ne (c : Char) (h : c.isDigit) : c ≠ '>' ∧ c ≠ '-' ∧ c ≠ '*' ∧ c ≠ '.' := by
  refine ⟨?_, ?_, ?_, ?_⟩ <;> (intro he; rw [he] at h; exact absurd h (by decide))

/-- C5.  Typing a single space converts the block by its leading text: a
leading `>` yields a quote, a leading `-` or `*` a bullet, and a leading one-
or two-digit number followed by a dot a numbered block, in each case with the
matched prefix and the following whitespace stripped and the triggering space
never inserted (the returned content is exactly the stripped pre-space text).
Three leading digits never trigger a conversion, so "100." stays untouched.
The if-chain makes the conversions mutually exclusive.  Concretely: "- " on an
empty block yields a bullet with empty content, "12. " a numbered block, and
"100. " no conversion. -/
theorem c5_autoformat :
    (∀ rest : Str, autoformatSpace ('>' :: rest) = some (.quote, jsTrimStart rest)) ∧
    (∀ rest : Str, autoformatSpace ('-' :: rest) = some (.bullet, jsTrimStart rest)) ∧
    (∀ rest : Str, autoformatSpace ('*' :: rest) = some (.bullet, jsTrimStart rest)) ∧
    (∀ (d : Char) (rest : Str), d.isDigit →
      autoformatSpace (d :: '.' :: rest) = some (.numbered, jsTrimStart rest)) ∧
    (∀ (d e : Char) (rest : Str), d.isDigit → e.isDigit →
      autoformatSpace (d :: e :: '.' :: rest) = some (.numbered, jsTrimStart rest)) ∧
    (∀ (d e f : Char) (rest : Str), d.isDigit → e.isDigit → f.isDigit →
      autoformatSpace (d :: e :: f :: rest) = none) ∧
    autoformatSpace ['-'] = some (.bullet, []) ∧
    autoformatSpace ['1', '2', '.'] = some (.numbered, []) ∧
    autoformatSpace ['1', '0', '0', '.'] = none := by
  refine ⟨?_, ?_, ?_, ?_, ?_, ?_, by decide, by decide, by decide⟩
  · intro rest; simp [autoformatSpace]
  · intro rest; simp [autoformatSpace]
  · intro rest; simp [autoformatSpace]
  · intro d rest hd
    obtain ⟨h1, h2, h3, h4⟩ := char_isDigit_ne d hd
    cases rest with
    | nil => simp [autoformatSpace, matchNumberedPfx, h1, h2, h3, hd]
    | cons c cs =>
      have hdot : ¬ ('.' : Char).isDigit := by decide
      simp [autoformatSpace, matchNumberedPfx, h1, h2, h3, hd, hdot]
  · intro d e rest hd he
    obtain ⟨h1, h2, h3, h4⟩ := char_isDigit_ne d hd
    simp [autoformatSpace, matchNumberedPfx, h1, h2, h3, hd, he]
  · intro d e f rest hd he hf
    obtain ⟨h1, h2, h3, h4⟩ := char_isDigit_ne d hd
    obtain ⟨e1, e2, e3, e4⟩ := char_isDigit_ne e he
    obtain ⟨f1, f2, f3, f4⟩ := char_isDigit_ne f hf
    simp [autoformatSpace, matchNumberedPfx, h1, h2, h3, hd, e4, f4]

/-- Witness for C5 at concrete inputs. -/
theorem c5_autoformat_witness :
    autoformatSpace ['5', '.', 'a'] = some (.numbered, ['a']) ∧
    autoformatSpace ['9', '9', '.'] = some (.numbered, []) ∧
    autoformatSpace ['1', '2', '3', '.', 'x'] = none :=
  ⟨c5_autoformat.2.2.2.1 '5' ['a'] (by decide),
   c5_autoformat.2.2.2.2.1 '9' '9' [] (by decide) (by decide),
   c5_autoformat.2.2.2.2.2.1 '1' '2' '3' ['.', 'x'] (by decide) (by decide) (by decide)⟩

/-! ## C3: the Backspace merge -/

/-- C3.  Backspace with a collapsed cursor at the first content position of a
block that is not the first block: the handler reports the merge, the current
block's text is appended to the previous block's text, the current block is
removed (later blocks shift down by one, earlier blocks are untouched), and
the caret is placed in the previous block at its pre-merge text length. -/
theorem c3_backspace_merge :
    ∀ (doc : List Block) (i : Nat) (prev cur : Block),
      0 < i → doc[i]? = some cur → doc[i - 1]? = some prev →
      (backspaceKeydown doc i true).2 = some (i - 1, prev.content.length) ∧
      (backspaceKeydown doc i true).1.length = doc.length - 1 ∧
      (((backspaceKeydown doc i true).1)[i - 1]?).map Block.core =
        some (prev.type, prev.level, prev.content ++ cur.content) ∧
      (∀ j, j < i - 1 →
        (((backspaceKeydown doc i true).1)[j]?).map Block.core = (doc[j]?).map Block.core) ∧
      (∀ j, i ≤ j →
        (((backspaceKeydown doc i true).1)[j]?).map Block.core = (doc[j + 1]?).map Block.core) := by
  intro doc i prev cur hi hcur hprev
  have hil : i < doc.length := (List.getElem?_eq_some.mp hcur).1
  have hlen2 : 2 ≤ doc.length := by omega
  have hguard : ¬ (doc.length = 1 ∧ jsTrim cur.content = []) := by
    rintro ⟨h1, -⟩; omega
  have hr : backspaceKeydown doc i true =
      (updateNumberedBlocks
        ((doc.set (i - 1) { prev with content := prev.content ++ cur.content }).eraseIdx i),
       some (i - 1, prev.content.length)) := by
    unfold backspaceKeydown
    rw [hcur]
    simp only [hguard, if_false, if_true, hprev]
    have : ¬ i = 0 := by omega
    simp [this]
  rw [hr]
  dsimp only
  have hsetlen : (doc.set (i - 1) { prev with content := prev.content ++ cur.content }).length
      = doc.length := List.length_set ..
  refine ⟨rfl, ?_, ?_, ?_, ?_⟩
  · rw [updateNumberedBlocks_length, List.length_eraseIdx]
    simp [hsetlen, hil]
  · rw [updateNumberedBlocks_getElem?_core, List.getElem?_eraseIdx]
    have : i - 1 < i := by omega
    simp only [this, if_true]
    rw [List.getElem?_set]
    simp [hil, show i - 1 < doc.length by omega, Block.core]
  · intro j hj
    rw [updateNumberedBlocks_getElem?_core, List.getElem?_eraseIdx]
    have h1 : j < i := by omega
    simp only [h1, if_true]
    rw [List.getElem?_set]
    simp [show ¬ i - 1 = j by omega]
  · intro j hj
    rw [updateNumberedBlocks_getElem?_core, List.getElem?_eraseIdx]
    have h1 : ¬ j < i := by omega
    simp only [h1, if_false]
    rw [List.getElem?_set]
    simp [show ¬ i - 1 = j + 1 by omega]

/-- Witness for C3 at a concrete two-block document. -/
theorem c3_backspace_merge_witness :
    (backspaceKeydown
      [createBlockElement .text ['a', 'b'] 0, createBlockElement .text ['c', 'd'] 0] 1 true).2 =
      some (0, 2) ∧
    (((backspaceKeydown
      [createBlockElement .text ['a', 'b'] 0, createBlockElement .text ['c', 'd'] 0] 1 true).1)[0]?).map
        Block.core = some (.text, 0, ['a', 'b', 'c', 'd']) :=
  ⟨(c3_backspace_merge _ 1 (createBlockElement .text ['a', 'b'] 0)
      (createBlockElement .text ['c', 'd'] 0) (by decide) rfl rfl).1,
   (c3_backspace_merge _ 1 (createBlockElement .text ['a', 'b'] 0)
      (createBlockElement .text ['c', 'd'] 0) (by decide) rfl rfl).2.2.1⟩

/-! ## C1: the zero-blocks invariant -/

theorem backspaceKeydown_ne_nil (doc : List Block) (i : Nat) (a : Bool) (hd : doc ≠ []) :
    (backspaceKeydown doc i a).1 ≠ [] := by
  unfold backspaceKeydown
  cases hcur : doc[i]? with
  | none => simpa using hd
  | some cur =>
    simp only []
    by_cases hguard : doc.length = 1 ∧ jsTrim cur.content = []
    · simpa [hguard] using hd
    · simp only [hguard, if_false]
      cases a with
      | false => simpa using hd
      | true =>
        by_cases hz : i = 0
        · simpa [hz] using hd
        · simp only [hz, if_false]
          cases hprev : doc[i - 1]? with
          | none => simpa using hd
          | some prev =>
            intro hnil
            rw [if_pos trivial] at hnil
            have hil : i < doc.length := (List.getElem?_eq_some.mp hcur).1
            have hlen := congrArg List.length hnil
            rw [updateNumberedBlocks_length, List.length_eraseIdx] at hlen
            simp [List.length_set, hil] at hlen
            omega

theorem deleteBlocksModel_ne_nil (doc : List Block) (targets : List Nat) :
    deleteBlocksModel doc targets ≠ [] := by
  intro h
  have hlen := congrArg List.length h
  unfold deleteBlocksModel at hlen
  rw [updateNumberedBlocks_length] at hlen
  by_cases hr : (removeTargets doc targets).length = 0
  · simp [hr] at hlen
  · simp [hr] at hlen

/-- C1.  The document never ends with fewer than one block: `deleteBlocks`
synthesizes one empty text block when the deletion removes every block (and
never returns an empty document), Clear All produces exactly one empty text
block, Backspace is suppressed when only one block exists and it is empty,
and any sequence of delete / clear / Backspace operations starting from a
nonempty document leaves a nonempty document. -/
theorem c1_zero_blocks_invariant :
    (∀ (doc : List Block) (targets : List Nat),
      removeTargets doc targets = [] →
        deleteBlocksModel doc targets = [createBlockElement .text []]) ∧
    (∀ (doc : List Block) (targets : List Nat), deleteBlocksModel doc targets ≠ []) ∧
    clearAllModel = [createBlockElement .text []] ∧
    (∀ b : Block, jsTrim b.content = [] → ∀ (i : Nat) (a : Bool),
      backspaceKeydown [b] i a = ([b], none)) ∧
    (∀ (ops : List EditOp) (doc : List Block), doc ≠ [] → applyEditOps doc ops ≠ []) := by
  refine ⟨?_, deleteBlocksModel_ne_nil, rfl, ?_, ?_⟩
  · intro doc targets h
    unfold deleteBlocksModel
    rw [h]
    rfl
  · intro b hb i a
    unfold backspaceKeydown
    cases hcur : ([b] : List Block)[i]? with
    | none => rfl
    | some cur =>
      have hil : i < 1 := by simpa using (List.getElem?_eq_some.mp hcur).1
      have hi0 : i = 0 := by omega
      subst hi0
      have hcb : b = cur := by simpa using hcur
      subst hcb
      simp [hb]
  · intro ops
    induction ops with
    | nil => intro doc hd; simpa [applyEditOps] using hd
    | cons op ops ih =>
      intro doc hd
      have hstep : applyEditOp doc op ≠ [] := by
        cases op with
        | del targets => exact deleteBlocksModel_ne_nil doc targets
        | clear => simp [applyEditOp, clearAllModel]
        | backspace i a => exact backspaceKeydown_ne_nil doc i a hd
      simpa [applyEditOps, List.foldl_cons] using ih (applyEditOp doc op) hstep

/-- Witness for C1 at concrete inputs. -/
theorem c1_zero_blocks_invariant_witness :
    deleteBlocksModel [createBlockElement .text ['x'] 0] [0] = [createBlockElement .text []] ∧
    backspaceKeydown [createBlockElement .text [] 0] 0 true =
      ([createBlockElement .text [] 0], none) ∧
    applyEditOps [createBlockElement .text ['x'] 0]
      [.del [0], .clear, .backspace 0 true] ≠ [] :=
  ⟨c1_zero_blocks_invariant.1 [createBlockElement .text ['x'] 0] [0] (by decide),
   c1_zero_blocks_invariant.2.2.2.1 (createBlockElement .text [] 0) (by decide) 0 true,
   c1_zero_blocks_invariant.2.2.2.2 [.del [0], .clear, .backspace 0 true]
     [createBlockElement .text ['x'] 0] (by decide)⟩

/-! ## C2: the Enter key -/

theorem insertAt_length (l : List α) (n : Nat) (a : α) (h : n ≤ l.length) :
    (insertAt l n a).length = l.length + 1 := by
  unfold insertAt
  simp only [List.length_append, List.length_take, List.length_cons, List.length_drop]
  omega

theorem insertAt_getElem?_self (l : List α) (n : Nat) (a : α) (h : n ≤ l.length) :
    (insertAt l n a)[n]? = some a := by
  unfold insertAt
  have hlen : (List.take n l).length = n := by
    simp [List.length_take]; omega
  rw [List.getElem?_append_right (le_of_eq hlen)]
  simp [hlen]

theorem insertAt_getElem?_lt (l : List α) (n : Nat) (a : α) (j : Nat) (h : n ≤ l.length)
    (hj : j < n) : (insertAt l n a)[j]? = l[j]? := by
  unfold insertAt
  have hlt : j < (List.take n l).length := by
    simp [List.length_take]; omega
  rw [List.getElem?_append, if_pos hlt, List.getElem?_take, if_pos hj]

theorem enterKey_cond_core (c : Prop) [Decidable c] (l : List Block) (j : Nat) :
    (((if c then updateNumberedBlocks l else l))[j]?).map Block.core = (l[j]?).map Block.core := by
  split
  · exact updateNumberedBlocks_getElem?_core l j
  · rfl

theorem enterKey_cond_length (c : Prop) [Decidable c] (l : List Block) :
    ((if c then updateNumberedBlocks l else l)).length = l.length := by
  split
  · exact updateNumberedBlocks_length l
  · rfl

/-- Counterexample to C2 as stated: a bullet block whose text is the single
space " " is not empty, so by the claim Enter should split it and insert a
new block after it; the handler instead tests `textContent.trim()`, converts
the block to text in place, and creates no new block. -/
theorem c2_enter_counterexample :
    (createBlockElement .bullet [' '] 0).content ≠ [] ∧
    (enterKey [createBlockElement .bullet [' '] 0] 0 0).1.length ≠
      ([createBlockElement .bullet [' '] 0] : List Block).length + 1 ∧
    (enterKey [createBlockElement .bullet [' '] 0] 0 0).1 =
      [{ createBlockElement .bullet [' '] 0 with type := .text, marker := none }] := by
  decide

/-- C2 amended.  On Enter: if the block's text is empty **or whitespace-only**
(the handler tests the trimmed `textContent`) and its type is bullet or
numbered, the block is converted to a text block in place, no new block is
created, and focus stays on it; otherwise the text after the cursor moves
into a new block inserted immediately after the current one, whose type is
the same list type when the current block is bullet or numbered and text
otherwise and whose level equals the current block's level, and focus goes to
the start of the new block (`focusBlock` is called without `atEnd`). -/
theorem c2_enter_amended :
    ∀ (doc : List Block) (i off : Nat) (b : Block), doc[i]? = some b →
      ((jsTrim b.content = [] ∧ (b.type = .bullet ∨ b.type = .numbered)) →
        (enterKey doc i off).1.length = doc.length ∧
        ((enterKey doc i off).1)[i]? = some { b with type := .text, marker := none } ∧
        (enterKey doc i off).2 = i) ∧
      (¬ (jsTrim b.content = [] ∧ (b.type = .bullet ∨ b.type = .numbered)) →
        (enterKey doc i off).1.length = doc.length + 1 ∧
        (((enterKey doc i off).1)[i]?).map Block.core =
          some (b.type, b.level, b.content.take off) ∧
        (((enterKey doc i off).1)[i + 1]?).map Block.core =
          some ((if b.type = .bullet ∨ b.type = .numbered then b.type else .text),
                b.level, b.content.drop off) ∧
        (enterKey doc i off).2 = i + 1) := by
  intro doc i off b hb
  have hil : i < doc.length := (List.getElem?_eq_some.mp hb).1
  constructor
  · intro hc
    have hr : enterKey doc i off =
        (updateNumberedBlocks (doc.set i { b with type := .text, marker := none }), i) := by
      unfold enterKey
      rw [hb]
      simp [hc]
    rw [hr]
    dsimp only
    refine ⟨by rw [updateNumberedBlocks_length, List.length_set], ?_, rfl⟩
    apply updateNumberedGo_not_numbered
    · rw [List.getElem?_set]
      simp [hil]
    · simp
  · intro hc
    have hr : enterKey doc i off =
        (if b.type = .numbered ∨
            (if b.type = .bullet ∨ b.type = .numbered then b.type else .text) = .numbered then
           updateNumberedBlocks
             (insertAt (doc.set i { b with content := b.content.take off }) (i + 1)
               (createBlockElement
                 (if b.type = .bullet ∨ b.type = .numbered then b.type else .text)
                 (b.content.drop off) b.level))
         else
           insertAt (doc.set i { b with content := b.content.take off }) (i + 1)
             (createBlockElement
               (if b.type = .bullet ∨ b.type = .numbered then b.type else .text)
               (b.content.drop off) b.level), i + 1) := by
      unfold enterKey
      rw [hb]
      simp only [hc, if_false]
    have hsl : i + 1 ≤ (doc.set i { b with content := b.content.take off }).length := by
      rw [List.length_set]; omega
    rw [hr]
    dsimp only
    refine ⟨?_, ?_, ?_, rfl⟩
    · rw [enterKey_cond_length, insertAt_length _ _ _ hsl, List.length_set]
    · rw [enterKey_cond_core, insertAt_getElem?_lt _ _ _ _ hsl (by omega), List.getElem?_set]
      simp [hil, Block.core]
    · rw [enterKey_cond_core, insertAt_getElem?_self _ _ _ hsl]
      simp [Block.core, createBlockElement]

/-- Witness for C2 (amended): an empty bullet block is converted in place; a
text block "ab" split at offset 1 yields two blocks. -/
theorem c2_enter_amended_witness :
    ((enterKey [createBlockElement .bullet [] 0] 0 0).1)[0]? =
      some { createBlockElement .bullet [] 0 with type := BlockType.text, marker := none } ∧
    (enterKey [createBlockElement .text ['a', 'b'] 0] 0 1).1.length = 2 :=
  ⟨((c2_enter_amended [createBlockElement .bullet [] 0] 0 0
      (createBlockElement .bullet [] 0) rfl).1 (by decide)).2.1,
   ((c2_enter_amended [createBlockElement .text ['a', 'b'] 0] 0 1
      (createBlockElement .text ['a', 'b'] 0) rfl).2 (by decide)).1⟩

/-! ## C10: node-level effect of the Backspace merge -/

theorem seqTextContent_append : ∀ a b : InlineSeq,
    seqTextContent (seqAppend a b) = seqTextContent a ++ seqTextContent b
  | .nil, b => rfl
  | .cons h t, b => by
    simp [seqAppend, seqTextContent, seqTextContent_append t b]

theorem seqTextContent_dropLast_br : ∀ s : InlineSeq, seqLast? s = some .br →
    seqTextContent (seqDropLast s) = seqTextContent s
  | .nil, h => by simp [seqLast?] at h
  | .cons x .nil, h => by
    simp only [seqLast?, Option.some.injEq] at h
    subst h
    rfl
  | .cons x (.cons y u), h => by
    have h' : seqLast? (InlineSeq.cons y u) = some .br := h
    simp [seqDropLast, seqTextContent, seqTextContent_dropLast_br (.cons y u) h']

theorem seqTextContent_removeTrailingBr (s : InlineSeq) :
    seqTextContent (removeTrailingBr s) = seqTextContent s := by
  unfold removeTrailingBr
  split
  · next h => exact seqTextContent_dropLast_br s h
  · rfl

theorem seqMemB_append : ∀ (x : Inline) (a b : InlineSeq),
    seqMemB x (seqAppend a b) = (seqMemB x a || seqMemB x b)
  | x, .nil, b => by simp [seqAppend, seqMemB]
  | x, .cons h t, b => by
    simp [seqAppend, seqMemB, seqMemB_append x t b, Bool.or_assoc]

theorem seqMemB_dropLast : ∀ (x : Inline) (s : InlineSeq),
    seqMemB x (seqDropLast s) = true → seqMemB x s = true
  | x, .nil, h => by simpa [seqDropLast] using h
  | x, .cons y .nil, h => by simp [seqDropLast, seqMemB] at h
  | x, .cons y (.cons z u), h => by
    simp only [seqDropLast, seqMemB, Bool.or_eq_true, decide_eq_true_eq] at h ⊢
    rcases h with h | h
    · exact Or.inl h
    · have h2 := seqMemB_dropLast x (.cons z u) (by simpa using h)
      exact Or.inr (by simpa [seqMemB] using h2)

theorem seqMemB_removeTrailingBr (x : Inline) (s : InlineSeq)
    (h : seqMemB x (removeTrailingBr s) = true) : seqMemB x s = true := by
  unfold removeTrailingBr at h
  revert h
  split
  · exact fun h => seqMemB_dropLast x s h
  · exact fun h => h

theorem seqLength_append : ∀ a b : InlineSeq,
    seqLength (seqAppend a b) = seqLength a + seqLength b
  | .nil, b => by simp [seqAppend, seqLength]
  | .cons h t, b => by
    simp [seqAppend, seqLength, seqLength_append t b]
    omega

/-- C10.  The Backspace merge appends to the previous block only the plain
flattened text of the merged block, as at most one new text node: the text is
fully preserved, every node of the merged result is either one of the
previous block's nodes or the single plain text node carrying the merged
block's flattened text (so bold/italic/strikethrough element nodes of the
merged block are discarded), at most one node is appended, and a trailing
`<br>` placeholder of the previous block is removed before the append. -/
theorem c10_merge_plain_text :
    ∀ prev cur : InlineSeq,
      seqTextContent (mergeAppendDom prev cur) = seqTextContent prev ++ seqTextContent cur ∧
      (∀ x : Inline, seqMemB x (mergeAppendDom prev cur) = true →
        seqMemB x prev = true ∨ x = .text (seqTextContent cur)) ∧
      seqLength (mergeAppendDom prev cur) ≤ seqLength (removeTrailingBr prev) + 1 ∧
      (seqLast? prev = some .br → removeTrailingBr prev = seqDropLast prev) := by
  intro prev cur
  unfold mergeAppendDom
  by_cases ht : (seqTextContent cur).length > 0
  · simp only [ht, if_true]
    refine ⟨?_, ?_, ?_, ?_⟩
    · rw [seqTextContent_append, seqTextContent_removeTrailingBr]
      simp [seqTextContent, inlineTextContent]
    · intro x hx
      rw [seqMemB_append] at hx
      rcases Bool.or_eq_true_iff.mp hx with hx | hx
      · exact Or.inl (seqMemB_removeTrailingBr x prev hx)
      · simp only [seqMemB, Bool.or_eq_true, decide_eq_true_eq] at hx
        rcases hx with hx | hx
        · exact Or.inr hx
        · simp [seqMemB] at hx
    · rw [seqLength_append]
      simp [seqLength]
    · intro h; unfold removeTrailingBr; rw [h]
  · simp only [ht, if_false]
    have ht0 : seqTextContent cur = [] := by
      cases hc : seqTextContent cur with
      | nil => rfl
      | cons c cs => rw [hc] at ht; simp at ht
    refine ⟨?_, ?_, ?_, ?_⟩
    · rw [seqTextContent_removeTrailingBr, ht0]
      simp
    · intro x hx
      exact Or.inl (seqMemB_removeTrailingBr x prev hx)
    · omega
    · intro h; unfold removeTrailingBr; rw [h]

/-! ## C8: the markdown round trip -/

/-- Counterexample to C8 as stated: the heading line "#  x" (two spaces after
the hash) is a heading line, but the round trip through `markdownToBlocks`
and `htmlToMarkdown` yields "# x" — `markdownToBlocks` extracts the content
" x" (with its leading space) while the serializer emits the trimmed content,
so the line's extracted content is not reproduced unchanged. -/
theorem c8_roundtrip_counterexample :
    (∀ l ∈ splitLines ('#' :: ' ' :: ' ' :: 'x' :: []), goodLine l = true) ∧
    ¬ ((nonblankLines (htmlToMarkdown (markdownToBlocks
          ('#' :: ' ' :: ' ' :: 'x' :: [])))).map classifyLineStrict =
        (nonblankLines ('#' :: ' ' :: ' ' :: 'x' :: [])).map classifyLineStrict) := by
  decide

/-- C8 amended.  For every markdown string consisting only of heading lines,
flat (non-indented) bullet lines, plain paragraphs and blank lines, parsing
with `markdownToBlocks` and serializing back with `htmlToMarkdown` reproduces
every non-blank line's classification and content **up to whitespace
trimming of the extracted content**, in the same order; only blank-line
counts may change. -/
theorem c8_roundtrip_amended :
    ∀ md : Str, (∀ l ∈ splitLines md, goodLine l = true) →
      (nonblankLines (htmlToMarkdown (markdownToBlocks md))).map classifyLine =
        (nonblankLines md).map classifyLine := by
  intro md hgood
  show nbMap classifyLine (htmlToMarkdown (markdownToBlocks md)) = nbMap classifyLine md
  rw [show htmlToMarkdown (markdownToBlocks md) =
    jsTrim (collapseNewlines (h2mGo (fun _ => 0) (markdownToBlocks md))) from rfl]
  rw [jsTrim_nb classifyLine classifyLine_congr, collapse_nb_all]
  have hnum : ∀ b ∈ markdownToBlocks md, ¬ b.type = .numbered := by
    intro b hb
    rw [show markdownToBlocks md = (splitLines md).map parseLine from rfl] at hb
    obtain ⟨l, hl, hbl⟩ := List.mem_map.mp hb
    rw [← hbl]
    exact parseLine_not_numbered l (hgood l hl)
  rw [h2mGo_eq _ hnum]
  have hnl : ∀ x ∈ linesOfBlocks (markdownToBlocks md), '\n' ∉ x := by
    intro x hx
    obtain ⟨b, hb, hxb⟩ := mem_linesOfBlocks _ _ hx
    rw [show markdownToBlocks md = (splitLines md).map parseLine from rfl] at hb
    obtain ⟨l, hl, hbl⟩ := List.mem_map.mp hb
    have hlnl : '\n' ∉ l := fun hc => (mem_splitLines md l hl '\n' hc).2 rfl
    rw [← hbl] at hxb
    exact blockLines_no_nl l (hgood l hl) hlnl x hxb
  rw [nb_joinLines _ _ hnl]
  rw [show markdownToBlocks md = (splitLines md).map parseLine from rfl]
  rw [show nbMap classifyLine md = nbOf classifyLine (splitLines md) from rfl]
  exact nbOf_lines (splitLines md) hgood

/-- Witness for C8 (amended) at a concrete markdown document containing a
heading, bullets written with both markers, a paragraph and blank lines. -/
theorem c8_roundtrip_amended_witness :
    (∀ l ∈ splitLines ("# Title\n\n- a\n* b\n\nhello world".toList), goodLine l = true) ∧
    (nonblankLines (htmlToMarkdown (markdownToBlocks
        ("# Title\n\n- a\n* b\n\nhello world".toList)))).map classifyLine =
      (nonblankLines ("# Title\n\n- a\n* b\n\nhello world".toList)).map classifyLine :=
  ⟨by decide, c8_roundtrip_amended ("# Title\n\n- a\n* b\n\nhello world".toList) (by decide)⟩

/-- Witness for C10: merging a block containing a bold element into a block
ending with a `<br>` placeholder. -/
theorem c10_merge_plain_text_witness :
    seqTextContent (mergeAppendDom
        (.cons (.text ['a', 'b']) (.cons .br .nil))
        (.cons (.elem ['b'] (.cons (.text ['X']) .nil)) (.cons (.text ['y']) .nil))) =
      seqTextContent (InlineSeq.cons (.text ['a', 'b']) (.cons .br .nil)) ++
      seqTextContent (InlineSeq.cons (.elem ['b'] (.cons (.text ['X']) .nil))
        (.cons (.text ['y']) .nil)) ∧
    (seqMemB (.text ['X', 'y']) (mergeAppendDom
        (.cons (.text ['a', 'b']) (.cons .br .nil))
        (.cons (.elem ['b'] (.cons (.text ['X']) .nil)) (.cons (.text ['y']) .nil))) = true →
      seqMemB (.text ['X', 'y']) (InlineSeq.cons (.text ['a', 'b']) (.cons .br .nil)) = true ∨
      (Inline.text ['X', 'y']) = .text (seqTextContent
        (InlineSeq.cons (.elem ['b'] (.cons (.text ['X']) .nil)) (.cons (.text ['y']) .nil)))) ∧
    removeTrailingBr (InlineSeq.cons (.text ['a', 'b']) (.cons .br .nil)) =
      seqDropLast (InlineSeq.cons (.text ['a', 'b']) (.cons .br .nil)) :=
  ⟨(c10_merge_plain_text _ _).1,
   (c10_merge_plain_text _ _).2.1 (.text ['X', 'y']),
   (c10_merge_plain_text (.cons (.text ['a', 'b']) (.cons .br .nil)) .nil).2.2.2 (by decide)⟩

end Thesis
